import Mathlib

/-!
Verification of the c-pluff plug-in scanning core against its
natural-language specification.  The development shallowly embeds the two
source files `src/libcpluff/pscan.c` (the scan engine, `cp_scan_plugins`)
and `src/libcpluff/ploader.c` (the local plug-in loader) as executable
Lean functions, and proves the specified properties about them.

Modelling conventions:
- C strings become `String`; a possibly-NULL string becomes `Option String`.
- NULL-terminated arrays become `List`s (the terminator is implicit).
- `malloc`/`hash_alloc_insert`/`strdup` outcomes are injected as explicit
  boolean inputs, one per allocation site, so that allocation-failure
  paths of the C code are reachable in the model.
- Host-registry callbacks (`cpi_install_plugin`, `cp_start_plugin`, ...)
  that live outside the two source files are modelled from the spec as
  status-returning inputs plus their documented effect on the registry.
- The engine's reference-count traffic is recorded as an event trace.
-/

namespace CPluff

/-- Status codes of `cp_status_t` used by the scanning core.  `errOther`
covers the remaining host-returned codes. -/
inductive CpStatus where
  | ok
  | errResource
  | errIO
  | errMalformed
  | errOther (code : Nat)
deriving DecidableEq

/-- Plug-in states of `cp_plugin_state_t`. -/
inductive PluginState where
  | uninstalled
  | installed
  | resolved
  | starting
  | active
  | stopping
deriving DecidableEq

/-- The part of `cp_plugin_info_t` the scanning core reads: the identifier
and the optional version.  `tag` models the object identity (the address)
of the record, so that distinct records with equal fields stay
distinguishable in the reference-count trace. -/
structure PluginInfo where
  identifier : String
  version : Option String
  tag : Nat
deriving DecidableEq

/-- Modelled from the spec: `cpi_vercmp` lives in `util.c`, which is not
part of the two given source files.  The spec (Glossary, "Version
compare") describes it as a total order supplied by the descriptor
parser in which `null` is less than any non-null version; the order on
non-null version strings is abstract here and is passed in as the
integer-valued comparator `vcmp`. -/
def cpi_vercmp (vcmp : String → String → Int) :
    Option String → Option String → Int
  | none, none => 0
  | none, some _ => -1
  | some _, none => 1
  | some a, some b => vcmp a b

/-- The strictly-greater relation derived from `cpi_vercmp`. -/
def verGt (vcmp : String → String → Int) (a b : Option String) : Prop :=
  0 < cpi_vercmp vcmp a b

instance (vcmp : String → String → Int) (a b : Option String) :
    Decidable (verGt vcmp a b) := by
  unfold verGt; infer_instance

/-- Transitivity of the string comparator, assumed of the parser-supplied
version order. -/
def VcmpTrans (vcmp : String → String → Int) : Prop :=
  ∀ a b c : String, 0 < vcmp a b → 0 < vcmp b c → 0 < vcmp a c

/-- Asymmetry of the string comparator, assumed of the parser-supplied
version order. -/
def VcmpAsymm (vcmp : String → String → Int) : Prop :=
  ∀ a b : String, 0 < vcmp a b → ¬ 0 < vcmp b a

/-! ## Local loader: directory registration (`ploader.c`)

The loader's `data` is a `list_t` of `char *` directory paths.  A list
node is modelled as `Option String`: `some d` is a node holding the live
path `d`, and `none` is a node whose payload has been freed (a dangling
pointer), which is exactly the state `cp_lpl_unregister_dirs` leaves
behind. -/

/-- `cp_lpl_register_dir` (ploader.c lines 136-178).  `allocOk` injects
the outcome of the `malloc`/`lnode_create` pair; on failure both are
freed and `CP_ERR_RESOURCE` is returned with the list unchanged.  If the
directory is already registered the call is a no-op returning `CP_OK`. -/
def cp_lpl_register_dir (dirs : List (Option String)) (dir : String)
    (allocOk : Bool) : CpStatus × List (Option String) :=
  if (some dir) ∈ dirs then
    (CpStatus.ok, dirs)
  else if allocOk then
    (CpStatus.ok, dirs ++ [some dir])
  else
    (CpStatus.errResource, dirs)

/-- `cp_lpl_unregister_dir` (ploader.c lines 180-196): removes the first
node holding `dir`, destroying the node and freeing the path. -/
def cp_lpl_unregister_dir (dirs : List (Option String)) (dir : String) :
    List (Option String) :=
  match dirs with
  | [] => []
  | d :: rest =>
      if d = some dir then rest
      else d :: cp_lpl_unregister_dir rest dir

/-- `cp_lpl_unregister_dirs` (ploader.c lines 198-204): runs
`list_process(dirs, NULL, cpi_process_free_ptr)`, which frees the payload
of every node but deletes no node — each node remains in the list with a
dangling pointer (`none`). -/
def cp_lpl_unregister_dirs (dirs : List (Option String)) :
    List (Option String) :=
  dirs.map (fun _ => none)

/-! ## Local loader: scanning (`lpl_scan_plugins`, ploader.c lines 206-357) -/

/-- `CP_FNAMESEP_CHAR` from defines.h, the compile-time path separator. -/
def CP_FNAMESEP_CHAR : Char := '/'

/-- The doubling loop of ploader.c lines 260-262 with an explicit fuel
for structural recursion: `while (pdir_path_size <= pdir_path_len)
pdir_path_size *= 2;`. -/
def growLoopFuel : Nat → Nat → Nat → Nat
  | 0, size, _ => size
  | fuel + 1, size, need =>
      if size ≤ need then growLoopFuel fuel (size * 2) need else size

/-- The doubling loop of ploader.c lines 260-262.  The C loop runs with
`size >= 128`, for which `need + 1` doubling steps always suffice since
the size at least doubles each step; a zero size is returned unchanged
to keep the function total. -/
def growLoop (size need : Nat) : Nat :=
  if size = 0 then 0 else growLoopFuel (need + 1) size need

/-- Descriptor-path construction of ploader.c lines 273-276: copy the
first `dlen` bytes of the directory path, then a separator, then the
entry name. -/
def mkDescriptorPath (dir : String) (dlen : Nat) (name : String) : String :=
  String.mk (dir.data.take dlen ++ CP_FNAMESEP_CHAR :: name.data)

/-- The trimmed directory length of ploader.c lines 241-244: one less
than the length when the last byte is the separator. -/
def dirTrimLen (dir : String) : Nat :=
  if dir.data.getLast? = some CP_FNAMESEP_CHAR then dir.length - 1
  else dir.length

/-- The final path component: the suffix after the last
`CP_FNAMESEP_CHAR`, accumulated by `lastCompAux`. -/
def lastCompAux : List Char → List Char → List Char
  | [], acc => acc.reverse
  | c :: rest, acc =>
      if c = CP_FNAMESEP_CHAR then lastCompAux rest []
      else lastCompAux rest (c :: acc)

/-- The final component of a path string. -/
def lastComponent (s : String) : String := String.mk (lastCompAux s.data [])

/-- One directory entry as returned by `readdir`, together with the
injected outcomes of this entry's allocation sites and of the descriptor
parse for the path formed from it. -/
structure LDirEntry where
  name : String
  reallocOk : Bool
  parseResult : Option PluginInfo
  insertOk : Bool
deriving DecidableEq

/-- The filesystem contents of one registered directory: `opendir`
failure, or an entry sequence possibly followed by a `readdir` error. -/
inductive LDirContent where
  | openFail
  | opened (entries : List LDirEntry) (readErr : Bool)
deriving DecidableEq

/-- Observable calls made by the local loader scan. -/
inductive LEvent where
  | parseCall (path : String)
  | releaseInfo (p : PluginInfo)
deriving DecidableEq

/-- The loader scan's running state: the `avail_plugins` hash (as an
association list in insertion order), the path-buffer capacity
`pdir_path_size`, and the trace of observable calls. -/
structure LplState where
  avail : List PluginInfo
  pdirPathSize : Nat
  events : List LEvent
deriving DecidableEq

/-- The path-buffer capacity after the growth check of ploader.c lines
254-262: unchanged when already large enough, else started at 128 and
doubled until it exceeds the needed length. -/
def lplNewSize (size need : Nat) : Nat :=
  if size ≤ need then growLoop (if size = 0 then 128 else size) need
  else size

/-- Reconciliation of one parsed plug-in into the loader's
`avail_plugins` hash (ploader.c lines 286-303): an already-present entry
with the same identifier is removed and released when the new version
compares strictly greater; if no equal-or-later entry remains the new
plug-in is inserted, and released when the hash insertion fails.  (A new
plug-in discarded because an equal-or-later entry is present is not
released here; no code in `lpl_scan_plugins` releases it.) -/
def lplReconcile (vcmp : String → String → Int) (st : LplState)
    (p : PluginInfo) (insOk : Bool) : LplState :=
  match st.avail.find? (fun q => q.identifier == p.identifier) with
  | some p2 =>
      if 0 < cpi_vercmp vcmp p.version p2.version then
        if insOk then
          { st with
              avail := st.avail.eraseP (fun q => q.identifier == p.identifier) ++ [p],
              events := st.events ++ [LEvent.releaseInfo p2] }
        else
          { st with
              avail := st.avail.eraseP (fun q => q.identifier == p.identifier),
              events := st.events ++ [LEvent.releaseInfo p2, LEvent.releaseInfo p] }
      else st
  | none =>
      if insOk then { st with avail := st.avail ++ [p] }
      else { st with events := st.events ++ [LEvent.releaseInfo p] }

/-- Processing of one directory entry (ploader.c lines 246-307): skip
names that are empty or start with `.`; grow the path buffer (skipping
the entry if the `realloc` fails; the capacity variable keeps its grown
value either way, as in the C code); invoke the descriptor parser on the
constructed path (skipping the entry on parse failure); reconcile the
parsed plug-in into `avail_plugins` by the highest-version-wins rule. -/
def lplEntryStep (vcmp : String → String → Int) (dir : String) (dlen : Nat)
    (st : LplState) (e : LDirEntry) : LplState :=
  match e.name.data with
  | [] => st
  | c :: _ =>
    if c = '.' then st
    else if st.pdirPathSize ≤ dlen + 1 + e.name.length + 1 ∧ ¬ e.reallocOk then
      { st with pdirPathSize := lplNewSize st.pdirPathSize (dlen + 1 + e.name.length + 1) }
    else
      match e.parseResult with
      | none =>
          { st with
              pdirPathSize := lplNewSize st.pdirPathSize (dlen + 1 + e.name.length + 1),
              events := st.events ++
                [LEvent.parseCall (mkDescriptorPath dir dlen e.name)] }
      | some p =>
          lplReconcile vcmp
            { st with
                pdirPathSize := lplNewSize st.pdirPathSize (dlen + 1 + e.name.length + 1),
                events := st.events ++
                  [LEvent.parseCall (mkDescriptorPath dir dlen e.name)] }
            p e.insertOk

/-- Processing of one registered directory (ploader.c lines 230-319): an
`opendir` failure or a mid-enumeration `readdir` error is logged and the
scan continues with the next directory. -/
def lplDirStep (vcmp : String → String → Int) (st : LplState)
    (d : String × LDirContent) : LplState :=
  match d.2 with
  | LDirContent.openFail => st
  | LDirContent.opened entries _ =>
      entries.foldl (lplEntryStep vcmp d.1 (dirTrimLen d.1)) st

/-- The loader scan's outcome: the returned array (`none` models a NULL
return) and the trace of observable calls. -/
structure LplOutput where
  result : Option (List PluginInfo)
  events : List LEvent
deriving DecidableEq

/-- `lpl_scan_plugins` (ploader.c lines 206-357).  Returns NULL when
creating the `avail_plugins` hash fails (line 225) or when allocating the
result array fails (line 323, releasing the collected plug-ins);
otherwise materializes `avail_plugins` as a null-terminated array. -/
def lpl_scan_plugins (vcmp : String → String → Int) (hashCreateOk : Bool)
    (arrayAllocOk : Bool) (dirs : List (String × LDirContent)) : LplOutput :=
  if ¬ hashCreateOk then ⟨none, []⟩
  else
    let st := dirs.foldl (lplDirStep vcmp) ⟨[], 0, []⟩
    if arrayAllocOk then ⟨some st.avail, st.events⟩
    else ⟨none, st.events ++ st.avail.map (fun p => LEvent.releaseInfo p)⟩

/-! ## Scan engine (`cp_scan_plugins`, pscan.c lines 59-327) -/

/-- The flag bits of `cp_scan_plugins` (`CP_SP_UPGRADE`,
`CP_SP_STOP_ALL_ON_INSTALL`, `CP_SP_STOP_ALL_ON_UPGRADE`,
`CP_SP_RESTART_ACTIVE`). -/
structure Flags where
  upgrade : Bool
  stopAllOnInstall : Bool
  stopAllOnUpgrade : Bool
  restartActive : Bool

/-- One element of a loader's returned array, together with the injected
outcomes of the two allocation sites used while consuming it in Phase B:
the `malloc` of the `available_plugin_t` record (pscan.c line 158) and
the `hash_alloc_insert` into `avail_plugins` (line 162). -/
structure ScanEntry where
  info : PluginInfo
  apMallocOk : Bool
  insertOk : Bool
deriving DecidableEq

/-- One key of `loaders_to_plugins`: the loader (identified by `lid`),
the identifiers already installed via it (the initial value hash), the
array its `scan_plugins` callback returns (`none` models a NULL return),
and whether it supplies a `release_plugins` hook. -/
structure LoaderInput where
  lid : Nat
  installed : List String
  result : Option (List ScanEntry)
  hasReleaseHook : Bool

/-- Observable calls the engine makes on the host and on plug-in
information records.  `releaseInfo` is a `cp_release_info` of a
reference the engine itself holds via `avail_plugins` (pscan.c lines
148, 267, 314); `releaseArray` is the per-entry `cp_release_info`
issued on the loader's behalf when it has no `release_plugins` hook
(line 185). -/
inductive Event where
  | useInfo (p : PluginInfo)
  | releaseInfo (p : PluginInfo)
  | releaseArray (p : PluginInfo)
  | install (id : String)
  | uninstall (id : String)
  | stopAll
  | start (id : String)
deriving DecidableEq

/-- An entry of `avail_plugins`: the `available_plugin_t` pair of plug-in
information and loader. -/
structure AvailEntry where
  info : PluginInfo
  lid : Nat
deriving DecidableEq

/-- The engine's running state: the scan status, the host registry's
`plugins` map (identifier to installed info), the `loaders_to_plugins`
map, the `plugins_stopped` flag, the `avail_plugins` hash (as an
association list in insertion order) and the trace of observable
calls. -/
structure EngineState where
  status : CpStatus
  registry : List (String × PluginInfo)
  l2p : List (Nat × List String)
  stopped : Bool
  avail : List AvailEntry
  events : List Event

/-- `hash_lookup` on the registry's `plugins` map, yielding the installed
plug-in's information record. -/
def regLookup (reg : List (String × PluginInfo)) (id : String) :
    Option PluginInfo :=
  (reg.find? (fun x => x.1 == id)).map (fun x => x.2)

/-- Modelled from the spec: `cp_uninstall_plugin` (host registry, outside
the two source files) removes the identifier from the `plugins` map; its
precondition (plug-in not running) is asserted by the caller. -/
def regRemove (reg : List (String × PluginInfo)) (id : String) :
    List (String × PluginInfo) :=
  reg.eraseP (fun x => x.1 == id)

/-- Modelled from the spec: `cpi_install_plugin` (host registry, outside
the two source files) on success adds the identifier with its
information record to the `plugins` map. -/
def regAdd (reg : List (String × PluginInfo)) (id : String)
    (p : PluginInfo) : List (String × PluginInfo) :=
  reg ++ [(id, p)]

/-- `hash_lookup` on `loaders_to_plugins` followed by `hnode_get`,
yielding the per-loader hash of installed identifiers. -/
def l2pLookup (l2p : List (Nat × List String)) (lid : Nat) : List String :=
  match l2p.find? (fun x => x.1 == lid) with
  | some x => x.2
  | none => []

/-- Replacing one loader's identifier hash inside `loaders_to_plugins`. -/
def l2pSet (l2p : List (Nat × List String)) (lid : Nat)
    (ids : List String) : List (Nat × List String) :=
  l2p.map (fun x => if x.1 == lid then (x.1, ids) else x)

/-- `hash_lookup` on `avail_plugins` (pscan.c line 140). -/
def availLookup (avail : List AvailEntry) (id : String) :
    Option AvailEntry :=
  avail.find? (fun ae => ae.info.identifier == id)

/-- The insert branch of Phase B (pscan.c lines 154-175): allocate the
`available_plugin_t`, attempt the hash insertion, and issue
`cpi_use_info` — the C code calls `cpi_use_info` whenever the `malloc`
succeeded, regardless of whether the hash insertion succeeded, and the
failure path frees the record and assigns `CP_ERR_RESOURCE` without
releasing the reference. -/
def scanEntryInsert (lid : Nat) (st : EngineState) (e : ScanEntry) :
    EngineState :=
  if e.apMallocOk then
    let st := { st with events := st.events ++ [Event.useInfo e.info] }
    if e.insertOk then { st with avail := st.avail ++ [⟨e.info, lid⟩] }
    else { st with status := CpStatus.errResource }
  else { st with status := CpStatus.errResource }

/-- Phase B processing of one array element (pscan.c lines 136-177):
if an entry with the same identifier is already in `avail_plugins` and
the new version compares strictly greater, the old entry is removed and
its reference released; if no (equal-or-later) entry remains, the new
plug-in is inserted. -/
def scanEntryStep (vcmp : String → String → Int) (lid : Nat)
    (st : EngineState) (e : ScanEntry) : EngineState :=
  let p := e.info
  match availLookup st.avail p.identifier with
  | some ae =>
      if 0 < cpi_vercmp vcmp p.version ae.info.version then
        scanEntryInsert lid
          { st with
              avail := st.avail.eraseP (fun q => q.info.identifier == p.identifier),
              events := st.events ++ [Event.releaseInfo ae.info] } e
      else st
  | none => scanEntryInsert lid st e

/-- Phase B processing of one loader (pscan.c lines 122-189): a NULL
scan result is logged and skipped; otherwise every array element is
consumed and then the array is released — through the loader's
`release_plugins` hook when present, else by a per-entry
`cp_release_info` and a `free` of the array. -/
def scanLoaderStep (vcmp : String → String → Int) (st : EngineState)
    (L : LoaderInput) : EngineState :=
  match L.result with
  | none => st
  | some entries =>
      let st := entries.foldl (scanEntryStep vcmp L.lid) st
      if L.hasReleaseHook then st
      else { st with events :=
              st.events ++ entries.map (fun e => Event.releaseArray e.info) }

/-- The literal upgrade test of pscan.c lines 212-215:
`(ip->plugin->version == NULL && plugin->version != NULL) ||
(ip->plugin->version != NULL && plugin->version != NULL &&
cpi_vercmp(plugin->version, ip->plugin->version) > 0)`. -/
def upgradeCond (vcmp : String → String → Int)
    (ipVer pVer : Option String) : Bool :=
  (ipVer.isNone && pVer.isSome) ||
    (ipVer.isSome && pVer.isSome &&
      decide (0 < cpi_vercmp vcmp pVer ipVer))

/-- Outcome of one Phase C iteration: continue with the next
`avail_plugins` entry, or break out of the loop. -/
inductive CStep where
  | cont (st : EngineState)
  | brk (st : EngineState)

/-- The engine state carried by a `CStep`. -/
def CStep.state : CStep → EngineState
  | CStep.cont st => st
  | CStep.brk st => st

/-- The conditional `cp_stop_plugins` call of pscan.c lines 216-220 and
232-235: stop all plug-ins if the given flag condition holds and they
have not been stopped during this scan yet. -/
def maybeStopAll (cond : Bool) (st : EngineState) : EngineState :=
  if cond ∧ ¬ st.stopped then
    { st with stopped := true, events := st.events ++ [Event.stopAll] }
  else st

/-- The `cp_uninstall_plugin` call of pscan.c line 221 (asserted to
succeed): remove the identifier from the registry. -/
def uninstallState (st : EngineState) (ae : AvailEntry) : EngineState :=
  { st with registry := regRemove st.registry ae.info.identifier,
            events := st.events ++ [Event.uninstall ae.info.identifier] }

/-- The reservation `hash_alloc_insert(loader_plugins, identifier, NULL)`
of pscan.c line 240; kazlib's hash chains prepend, so the new node heads
the chain. -/
def reserveAdd (st : EngineState) (ae : AvailEntry) : EngineState :=
  { st with l2p :=
      l2pSet st.l2p ae.lid (ae.info.identifier :: l2pLookup st.l2p ae.lid) }

/-- The reservation rollback `hash_delete_free(loader_plugins,
hash_lookup(...))` of pscan.c lines 248-253: remove the chain node
`hash_lookup` finds, which is the most recently inserted one. -/
def reserveRollback (st : EngineState) (ae : AvailEntry) : EngineState :=
  { st with l2p :=
      l2pSet st.l2p ae.lid ((l2pLookup st.l2p ae.lid).erase ae.info.identifier) }

/-- The successful `cpi_install_plugin` of pscan.c line 243 followed by
the entry removal and release of lines 264-267: the registry gains the
plug-in (modelled from the spec's host-registry contract) and the
engine's reference is released. -/
def installOkState (st : EngineState) (ae : AvailEntry) : EngineState :=
  { st with registry := regAdd st.registry ae.info.identifier ae.info,
            events := st.events ++
              [Event.install ae.info.identifier, Event.releaseInfo ae.info] }

/-- The install half of one Phase C iteration (pscan.c lines 227-262),
entered when no installed plug-in with this identifier remains: stop all
plug-ins if `CP_SP_STOP_ALL_ON_INSTALL` requires it, reserve a slot in
the loader's hash, and install.  A failing reservation breaks the loop
with `CP_ERR_RESOURCE`; a failing install rolls the reservation back and
breaks the loop with the returned code. -/
def phaseCInstall (flags : Flags) (installStatus : String → Nat → CpStatus)
    (reserveOk : Nat → String → Bool) (st : EngineState)
    (ae : AvailEntry) : CStep :=
  if reserveOk ae.lid ae.info.identifier then
    if installStatus ae.info.identifier ae.lid = CpStatus.ok then
      CStep.cont
        (installOkState (reserveAdd (maybeStopAll flags.stopAllOnInstall st) ae) ae)
    else
      CStep.brk
        { reserveRollback (reserveAdd (maybeStopAll flags.stopAllOnInstall st) ae) ae with
            status := installStatus ae.info.identifier ae.lid }
  else
    CStep.brk { maybeStopAll flags.stopAllOnInstall st with
                  status := CpStatus.errResource }

/-- Phase C processing of one `avail_plugins` entry (pscan.c lines
193-268): if an installed plug-in with this identifier exists and the
`CP_SP_UPGRADE` test of lines 210-215 passes, it is uninstalled
(stopping all plug-ins first when so flagged) and the new plug-in is
installed in its place; if the identifier is not installed the plug-in
is installed; an installed identifier that is not to be upgraded only
has the engine's reference released (lines 264-267). -/
def phaseCEntry (vcmp : String → String → Int) (flags : Flags)
    (installStatus : String → Nat → CpStatus)
    (reserveOk : Nat → String → Bool) (st : EngineState)
    (ae : AvailEntry) : CStep :=
  match regLookup st.registry ae.info.identifier with
  | some ipi =>
      if flags.upgrade ∧ upgradeCond vcmp ipi.version ae.info.version then
        phaseCInstall flags installStatus reserveOk
          (uninstallState
            (maybeStopAll (flags.stopAllOnUpgrade || flags.stopAllOnInstall) st) ae)
          ae
      else
        CStep.cont { st with events := st.events ++ [Event.releaseInfo ae.info] }
  | none => phaseCInstall flags installStatus reserveOk st ae

/-- The Phase C loop (pscan.c lines 191-268).  Returns the state after
the loop together with the `avail_plugins` entries still in the hash
when the loop ends (empty unless the loop was broken); those are
released by the cleanup epilogue. -/
def phaseCRun (vcmp : String → String → Int) (flags : Flags)
    (installStatus : String → Nat → CpStatus)
    (reserveOk : Nat → String → Bool) :
    EngineState → List AvailEntry → EngineState × List AvailEntry
  | st, [] => (st, [])
  | st, ae :: rest =>
      match phaseCEntry vcmp flags installStatus reserveOk st ae with
      | CStep.cont st2 => phaseCRun vcmp flags installStatus reserveOk st2 rest
      | CStep.brk st2 => (st2, ae :: rest)

/-- The Phase A snapshot loop (pscan.c lines 91-109): collect the
identifiers of plug-ins in state `STARTING` or `ACTIVE`; a failing
`strdup` or `lnode_create` assigns `CP_ERR_RESOURCE` and breaks out of
the for loop only — the scan itself proceeds with the partial list. -/
def snapshotLoop (pluginState : String → PluginState)
    (strdupOk nodeOk : String → Bool) :
    List (String × PluginInfo) → CpStatus × List String
  | [] => (CpStatus.ok, [])
  | (id, _) :: rest =>
      if pluginState id = PluginState.starting ∨
          pluginState id = PluginState.active then
        if ¬ strdupOk id then (CpStatus.errResource, [])
        else if ¬ nodeOk id then (CpStatus.errResource, [])
        else
          let r := snapshotLoop pluginState strdupOk nodeOk rest
          (r.1, id :: r.2)
      else snapshotLoop pluginState strdupOk nodeOk rest

/-- The Phase D restart loop (pscan.c lines 271-284): start each
snapshotted identifier in order; each non-OK start code is assigned to
the scan status, and the loop always runs to the end of the list. -/
def phaseD (startStatus : String → CpStatus) (st : EngineState) :
    Option (List String) → EngineState
  | none => st
  | some ids =>
      ids.foldl
        (fun st id =>
          let s := startStatus id
          let st := { st with events := st.events ++ [Event.start id] }
          if s = CpStatus.ok then st else { st with status := s })
        st

/-- All inputs of one `cp_scan_plugins` invocation: the flags, the host
context (registry contents, plug-in states, loaders with their scan
results, and the modelled-from-spec host callback results
`installStatus` and `startStatus`), and the injected outcomes of the
engine's allocation sites. -/
structure ScanInput where
  flags : Flags
  registry : List (String × PluginInfo)
  pluginState : String → PluginState
  loaders : List LoaderInput
  installStatus : String → Nat → CpStatus
  startStatus : String → CpStatus
  getPluginsInfoFail : Option CpStatus
  startedListOk : Bool
  strdupOk : String → Bool
  nodeOk : String → Bool
  availHashOk : Bool
  reserveOk : Nat → String → Bool

/-- The observable outcome of `cp_scan_plugins`: the returned status,
the final registry `plugins` map, the final `loaders_to_plugins` map and
the trace of observable calls. -/
structure ScanOutput where
  status : CpStatus
  registry : List (String × PluginInfo)
  l2p : List (Nat × List String)
  events : List Event

/-- The initial `loaders_to_plugins` map determined by the loader
inputs. -/
def initL2p (loaders : List LoaderInput) : List (Nat × List String) :=
  loaders.map (fun L => (L.lid, L.installed))

/-- Phases B, C and D of `cp_scan_plugins` together with the cleanup
epilogue, entered with the status and restart list produced by
Phase A. -/
def scanMain (vcmp : String → String → Int) (inp : ScanInput)
    (status0 : CpStatus) (restart : Option (List String)) : ScanOutput :=
  if ¬ inp.availHashOk then
    ⟨CpStatus.errResource, inp.registry, initL2p inp.loaders, []⟩
  else
    let st0 : EngineState :=
      ⟨status0, inp.registry, initL2p inp.loaders, false, [], []⟩
    let st1 := inp.loaders.foldl (scanLoaderStep vcmp) st0
    let cr := phaseCRun vcmp inp.flags inp.installStatus inp.reserveOk st1 st1.avail
    let st2 := phaseD inp.startStatus cr.1 restart
    ⟨st2.status, st2.registry, st2.l2p,
      st2.events ++ cr.2.map (fun ae => Event.releaseInfo ae.info)⟩

/-- `cp_scan_plugins` (pscan.c lines 59-327).  Phase A snapshots the
started plug-ins when the flag combination requires it (aborting the
scan if `cp_get_plugins_info` or the list creation fails); Phase B
consults every loader and reconciles the returned arrays into
`avail_plugins`; Phase C installs or upgrades each collected plug-in,
breaking on a host install failure; Phase D restarts the snapshotted
plug-ins; the epilogue releases whatever is left in `avail_plugins`. -/
def cp_scan_plugins (vcmp : String → String → Int) (inp : ScanInput) :
    ScanOutput :=
  if inp.flags.restartActive ∧ (inp.flags.upgrade ∨ inp.flags.stopAllOnInstall) then
    match inp.getPluginsInfoFail with
    | some s => ⟨s, inp.registry, initL2p inp.loaders, []⟩
    | none =>
        if ¬ inp.startedListOk then
          ⟨CpStatus.errResource, inp.registry, initL2p inp.loaders, []⟩
        else
          let snap := snapshotLoop inp.pluginState inp.strdupOk inp.nodeOk inp.registry
          scanMain vcmp inp snap.1 (some snap.2)
  else scanMain vcmp inp CpStatus.ok none

/-! ## Specification-side definitions used in theorem statements -/

/-- Whether an event is a Phase D `cp_start_plugin` call. -/
def isStart : Event → Bool
  | Event.start _ => true
  | _ => false

/-- Whether an event is an `install_plugin` call for identifier `id`. -/
def isInstallOf (id : String) : Event → Bool
  | Event.install id2 => id2 == id
  | _ => false

/-- Whether an event is one of the reference-count events Phase B can
emit. -/
def isBEvent : Event → Bool
  | Event.useInfo _ => true
  | Event.releaseInfo _ => true
  | Event.releaseArray _ => true
  | _ => false

/-- The status left by a sequence of start calls that each overwrite the
status on failure: the last non-OK code, or the initial status if every
call succeeds. -/
def lastNonOk (f : String → CpStatus) (ids : List String) (s0 : CpStatus) :
    CpStatus :=
  ids.foldl (fun acc id => if f id = CpStatus.ok then acc else f id) s0

/-- The pure reconciliation step of Phase B (pscan.c lines 140-163
without failure injection): highest version wins, first seen wins
ties. -/
def reconcileStep (vcmp : String → String → Int)
    (avail : List AvailEntry) (p : PluginInfo) (lid : Nat) :
    List AvailEntry :=
  match availLookup avail p.identifier with
  | some ae =>
      if 0 < cpi_vercmp vcmp p.version ae.info.version then
        avail.eraseP (fun q => q.info.identifier == p.identifier) ++ [⟨p, lid⟩]
      else avail
  | none => avail ++ [⟨p, lid⟩]

/-- The pure reconciliation of a whole input sequence. -/
def reconcile (vcmp : String → String → Int)
    (l : List (PluginInfo × Nat)) : List AvailEntry :=
  l.foldl (fun av pl => reconcileStep vcmp av pl.1 pl.2) []

/-- All (plug-in, loader) pairs handed to the engine across the loader
arrays, in consumption order. -/
def inputPairs (loaders : List LoaderInput) : List (PluginInfo × Nat) :=
  loaders.flatMap (fun L => (L.result.getD []).map (fun e => (e.info, L.lid)))

/-- The identifiers of the input multiset. -/
def inputIds (loaders : List LoaderInput) : List String :=
  (inputPairs loaders).map (fun pl => pl.1.identifier)

/-- The registry entries installed under a given identifier. -/
def regFilter (reg : List (String × PluginInfo)) (id : String) :
    List (String × PluginInfo) :=
  reg.filter (fun x => x.1 == id)

/-- The identifiers of one loader's returned array. -/
def loaderIds (L : LoaderInput) : List String :=
  (L.result.getD []).map (fun e => e.info.identifier)

/-- The `avail_plugins` contents Phase B produces when every identifier
in the input is distinct: the entries whose hash insertion succeeded, in
consumption order. -/
def okPairs (loaders : List LoaderInput) : List AvailEntry :=
  loaders.flatMap (fun L =>
    ((L.result.getD []).filter (fun e => e.insertOk)).map
      (fun e => AvailEntry.mk e.info L.lid))

/-- The identifiers of the entries of an `avail_plugins` hash. -/
def availIds (avail : List AvailEntry) : List String :=
  avail.map (fun ae => ae.info.identifier)

/-- The invariant maintained by Phase B reconciliation over the pairs
consumed so far: `avail_plugins` holds at most one entry per identifier,
every entry comes from the consumed input, every consumed identifier is
represented, and no consumed version strictly exceeds the entry kept for
its identifier. -/
def ReconInv (vcmp : String → String → Int)
    (seen : List (PluginInfo × Nat)) (avail : List AvailEntry) : Prop :=
  (availIds avail).Nodup ∧
  (∀ ae ∈ avail, (ae.info, ae.lid) ∈ seen) ∧
  (∀ pl ∈ seen, pl.1.identifier ∈ availIds avail) ∧
  (∀ ae ∈ avail, ∀ pl ∈ seen, pl.1.identifier = ae.info.identifier →
    ¬ verGt vcmp pl.1.version ae.info.version)

/-! ## Concrete instances used by witnesses and counterexamples -/

/-- The entry list of a directory-content value. -/
def LDirContent.entries : LDirContent → List LDirEntry
  | LDirContent.openFail => []
  | LDirContent.opened es _ => es

/-- A concrete version comparator (by string length) standing in for the
parser-supplied total order in witness instantiations. -/
def vcmp0 (a b : String) : Int := (a.length : Int) - (b.length : Int)

/-- Concrete plug-in information records for witness inputs. -/
def wp1 : PluginInfo := ⟨"p", some "1.0", 0⟩

/-- A second version of the same identifier, with a longer (hence
`vcmp0`-greater) version string. -/
def wp2 : PluginInfo := ⟨"p", some "2.0.1", 1⟩

/-- A plug-in with a distinct identifier. -/
def wq1 : PluginInfo := ⟨"q", some "1.0", 2⟩

/-- An installed plug-in used for restart snapshots. -/
def wa : PluginInfo := ⟨"a", none, 10⟩

/-- A second installed plug-in used for restart snapshots. -/
def wb : PluginInfo := ⟨"b", none, 11⟩

/-- A scan entry with no injected allocation failure. -/
def okEntry (p : PluginInfo) : ScanEntry := ⟨p, true, true⟩

/-- A concrete directory listing with one hidden and one ordinary entry,
used by the claim C7 witness. -/
def wdirs : List (String × LDirContent) :=
  [("/d", LDirContent.opened
      [⟨".x", true, some wp1, true⟩, ⟨"good", true, some wq1, true⟩] false)]

/-- A concrete engine state in which identifier `p` is installed at
version `1.0`, used by the claim C2 witness. -/
def wst2 : EngineState :=
  ⟨CpStatus.ok, [("p", wp1)], [(0, [])], false, [], []⟩

/-- The plug-in whose `avail` insertion is made to fail in the claim C6
failing input. -/
def wp6 : PluginInfo := ⟨"x", some "1.0", 9⟩

/-- The claim C6 failing input: one loader (with a `release_plugins`
hook) returns one plug-in, and the `hash_alloc_insert` into
`avail_plugins` for it fails. -/
def winp6 : ScanInput :=
  ⟨⟨false, false, false, false⟩, [], fun _ => PluginState.uninstalled,
   [⟨0, [], some [⟨wp6, true, false⟩], true⟩],
   fun _ _ => CpStatus.ok, fun _ => CpStatus.ok,
   none, true, fun _ => true, fun _ => true, true, fun _ _ => true⟩

/-- The claim C1 witness input: two loaders offer identifier `p` at
versions `1.0` and `2.0.1` into an empty registry. -/
def winp1 : ScanInput :=
  ⟨⟨false, false, false, false⟩, [], fun _ => PluginState.uninstalled,
   [⟨0, [], some [okEntry wp1], false⟩, ⟨1, [], some [okEntry wp2], false⟩],
   fun _ _ => CpStatus.ok, fun _ => CpStatus.ok,
   none, true, fun _ => true, fun _ => true, true, fun _ _ => true⟩

/-- The claim C4 counterexample input: one loader returns the plug-in
`x` (whose `avail_plugins` insertion fails) followed by the plug-in `q`
(processed normally); no other failure is injected. -/
def winp4 : ScanInput :=
  ⟨⟨false, false, false, false⟩, [], fun _ => PluginState.uninstalled,
   [⟨0, [], some [⟨wp6, true, false⟩, okEntry wq1], false⟩],
   fun _ _ => CpStatus.ok, fun _ => CpStatus.ok,
   none, true, fun _ => true, fun _ => true, true, fun _ _ => true⟩

/-- The claim C3 counterexample input: plug-ins `a` and `b` are active
and snapshotted, no loaders return anything, and both restarts fail
with different codes (`a` with `CP_ERR_IO`, `b` with
`CP_ERR_MALFORMED`). -/
def winp3 : ScanInput :=
  ⟨⟨true, false, false, true⟩, [("a", wa), ("b", wb)],
   fun _ => PluginState.active,
   [], fun _ _ => CpStatus.ok,
   fun id => if id = "a" then CpStatus.errIO else CpStatus.errMalformed,
   none, true, fun _ => true, fun _ => true, true, fun _ _ => true⟩

/-- The claim C5 witness input: plug-in `a` is active (so the restart
branch is taken and `a` is snapshotted), one loader returns `p`
followed by `x`, the host install of `x` fails with `CP_ERR_IO`, and no
other failure is injected. -/
def winp5 : ScanInput :=
  ⟨⟨true, false, false, true⟩, [("a", wa)],
   fun id => if id = "a" then PluginState.active else PluginState.uninstalled,
   [⟨0, [], some [okEntry wp1, okEntry wp6], false⟩],
   fun id _ => if id = "x" then CpStatus.errIO else CpStatus.ok,
   fun _ => CpStatus.ok,
   none, true, fun _ => true, fun _ => true, true, fun _ _ => true⟩

/-! ## Theorems -/

theorem verGt_trans {vcmp : String → String → Int} (ht : VcmpTrans vcmp) :
    ∀ {a b c : Option String}, verGt vcmp a b → verGt vcmp b c → verGt vcmp a c := by
  intro a b c hab hbc
  match a, b, c with
  | _, none, none => exact absurd hbc (by simp [verGt, cpi_vercmp])
  | none, some _, _ => exact absurd hab (by simp [verGt, cpi_vercmp])
  | some _, some _, none => simp [verGt, cpi_vercmp]
  | none, none, _ => exact absurd hab (by simp [verGt, cpi_vercmp])
  | some _, none, some _ => exact absurd hbc (by simp [verGt, cpi_vercmp])
  | some x, some y, some z =>
      exact ht x y z hab hbc

theorem verGt_asymm {vcmp : String → String → Int} (ha : VcmpAsymm vcmp) :
    ∀ {a b : Option String}, verGt vcmp a b → ¬ verGt vcmp b a := by
  intro a b hab hba
  match a, b with
  | none, none => exact absurd hab (by simp [verGt, cpi_vercmp])
  | none, some _ => exact absurd hab (by simp [verGt, cpi_vercmp])
  | some _, none => exact absurd hba (by simp [verGt, cpi_vercmp])
  | some x, some y => exact ha x y hab hba

theorem vcmp0_trans : VcmpTrans vcmp0 := by
  intro a b c hab hbc
  unfold vcmp0 at *
  omega

theorem vcmp0_asymm : VcmpAsymm vcmp0 := by
  intro a b hab hba
  unfold vcmp0 at *
  omega

/-! ### Local loader directory-set claims -/

/-- Claim C8: registering an already-present path is a no-op returning
`CP_OK`, so a second `register_dir` of the same path leaves the
directory set equal to the set after the first call; the only failure
is `CP_ERR_RESOURCE` on allocation failure, which leaves the set
unchanged. -/
theorem claim_C8 (dirs : List (Option String)) (d : String) (a1 a2 : Bool) :
    (some d ∈ dirs → cp_lpl_register_dir dirs d a1 = (CpStatus.ok, dirs)) ∧
    ((cp_lpl_register_dir dirs d a1).1 = CpStatus.ok →
      cp_lpl_register_dir (cp_lpl_register_dir dirs d a1).2 d a2 =
        (CpStatus.ok, (cp_lpl_register_dir dirs d a1).2)) ∧
    (some d ∉ dirs → a1 = false →
      cp_lpl_register_dir dirs d a1 = (CpStatus.errResource, dirs)) := by
  unfold cp_lpl_register_dir
  by_cases hm : (some d) ∈ dirs
  · simp [hm]
  · cases a1 <;> simp [hm]

/-- Witness for claim C8 at concrete inputs: registering `plugins` twice
is idempotent, and a failing allocation leaves the empty set empty. -/
theorem claim_C8_witness :
    cp_lpl_register_dir (cp_lpl_register_dir [] "plugins" true).2 "plugins" true =
      (CpStatus.ok, (cp_lpl_register_dir [] "plugins" true).2) ∧
    cp_lpl_register_dir [] "plugins" false = (CpStatus.errResource, []) :=
  ⟨(claim_C8 [] "plugins" true true).2.1 (by decide),
   (claim_C8 [] "plugins" false false).2.2 (by decide) (by decide)⟩

/-- Claim C9, evaluated at the failing input: after
`cp_lpl_unregister_dirs` on a loader with one registered directory, the
list still holds one node (now a dangling pointer) — the directory set
is not empty, contradicting the specified behaviour. -/
theorem claim_C9 :
    cp_lpl_unregister_dirs [some "plugins"] = [none] ∧
    (cp_lpl_unregister_dirs [some "plugins"]).length = 1 := by
  constructor <;> rfl

/-! ### Local loader scan claims -/

theorem lastCompAux_append_sep (xs ys : List Char) (acc : List Char) :
    lastCompAux (xs ++ CP_FNAMESEP_CHAR :: ys) acc = lastCompAux ys [] := by
  induction xs generalizing acc with
  | nil => simp [lastCompAux]
  | cons c rest ih =>
      simp only [List.cons_append, lastCompAux]
      split <;> apply ih

theorem lastCompAux_no_sep (ys : List Char) (acc : List Char)
    (h : CP_FNAMESEP_CHAR ∉ ys) :
    lastCompAux ys acc = acc.reverse ++ ys := by
  induction ys generalizing acc with
  | nil => simp [lastCompAux]
  | cons c rest ih =>
      simp only [List.mem_cons, not_or] at h
      simp only [lastCompAux]
      rw [if_neg (fun hc => h.1 hc.symm), ih _ h.2]
      simp

theorem lastComponent_mkDescriptorPath (dir : String) (dlen : Nat)
    (name : String) (h : CP_FNAMESEP_CHAR ∉ name.data) :
    lastComponent (mkDescriptorPath dir dlen name) = name := by
  show String.mk (lastCompAux (dir.data.take dlen ++ CP_FNAMESEP_CHAR :: name.data) []) = name
  rw [lastCompAux_append_sep, lastCompAux_no_sep _ _ h]
  rfl

theorem lplReconcile_parseCall (vcmp : String → String → Int)
    (st : LplState) (p : PluginInfo) (insOk : Bool) (path : String)
    (h : LEvent.parseCall path ∈ (lplReconcile vcmp st p insOk).events) :
    LEvent.parseCall path ∈ st.events := by
  unfold lplReconcile at h
  split at h
  · split at h
    · split at h <;> simp_all
    · exact h
  · split at h <;> simp_all

theorem lplEntryStep_parseCall (vcmp : String → String → Int) (dir : String)
    (dlen : Nat) (st : LplState) (e : LDirEntry) (path : String)
    (h : LEvent.parseCall path ∈ (lplEntryStep vcmp dir dlen st e).events) :
    LEvent.parseCall path ∈ st.events ∨
      (path = mkDescriptorPath dir dlen e.name ∧
        ∃ c cs, e.name.data = c :: cs ∧ c ≠ '.') := by
  unfold lplEntryStep at h
  split at h
  · exact Or.inl h
  · rename_i c cs hname
    split at h
    · exact Or.inl h
    · rename_i hdot
      split at h
      · exact Or.inl h
      · split at h
        · simp only [List.mem_append, List.mem_singleton] at h
          rcases h with h | h
          · exact Or.inl h
          · cases h
            exact Or.inr ⟨rfl, c, cs, hname, hdot⟩
        · have h2 := lplReconcile_parseCall _ _ _ _ _ h
          simp only [List.mem_append, List.mem_singleton] at h2
          rcases h2 with h2 | h2
          · exact Or.inl h2
          · cases h2
            exact Or.inr ⟨rfl, c, cs, hname, hdot⟩

theorem lplFold_parseCall (vcmp : String → String → Int) (dir : String)
    (dlen : Nat) (entries : List LDirEntry) (st : LplState) (path : String)
    (h : LEvent.parseCall path ∈
      (entries.foldl (lplEntryStep vcmp dir dlen) st).events) :
    LEvent.parseCall path ∈ st.events ∨
      ∃ e ∈ entries, path = mkDescriptorPath dir dlen e.name ∧
        ∃ c cs, e.name.data = c :: cs ∧ c ≠ '.' := by
  induction entries generalizing st with
  | nil => exact Or.inl h
  | cons e rest ih =>
      rcases ih _ h with h2 | ⟨e2, he2, hp⟩
      · rcases lplEntryStep_parseCall _ _ _ _ _ _ h2 with h3 | hp
        · exact Or.inl h3
        · exact Or.inr ⟨e, List.mem_cons_self _ _, hp⟩
      · exact Or.inr ⟨e2, List.mem_cons_of_mem _ he2, hp⟩

theorem lplDirStep_parseCall (vcmp : String → String → Int) (st : LplState)
    (d : String × LDirContent) (path : String)
    (h : LEvent.parseCall path ∈ (lplDirStep vcmp st d).events) :
    LEvent.parseCall path ∈ st.events ∨
      ∃ e ∈ LDirContent.entries d.2,
        path = mkDescriptorPath d.1 (dirTrimLen d.1) e.name ∧
        ∃ c cs, e.name.data = c :: cs ∧ c ≠ '.' := by
  unfold lplDirStep at h
  split at h
  · exact Or.inl h
  · rename_i es re heq
    rcases lplFold_parseCall _ _ _ _ _ _ h with h2 | ⟨e, he, hp⟩
    · exact Or.inl h2
    · exact Or.inr ⟨e, by rw [heq]; exact he, hp⟩

theorem lplDirsFold_parseCall (vcmp : String → String → Int)
    (dirs : List (String × LDirContent)) (st : LplState) (path : String)
    (h : LEvent.parseCall path ∈
      (dirs.foldl (lplDirStep vcmp) st).events) :
    LEvent.parseCall path ∈ st.events ∨
      ∃ d ∈ dirs, ∃ e ∈ LDirContent.entries d.2,
        path = mkDescriptorPath d.1 (dirTrimLen d.1) e.name ∧
        ∃ c cs, e.name.data = c :: cs ∧ c ≠ '.' := by
  induction dirs generalizing st with
  | nil => exact Or.inl h
  | cons d rest ih =>
      rcases ih _ h with h2 | ⟨d2, hd2, hp⟩
      · rcases lplDirStep_parseCall _ _ _ _ h2 with h3 | ⟨e, he, hp⟩
        · exact Or.inl h3
        · exact Or.inr ⟨d, List.mem_cons_self _ _, e, he, hp⟩
      · exact Or.inr ⟨d2, List.mem_cons_of_mem _ hd2, hp⟩

theorem lplScan_parseCall (vcmp : String → String → Int)
    (hashCreateOk arrayAllocOk : Bool) (dirs : List (String × LDirContent))
    (path : String)
    (hp : LEvent.parseCall path ∈
      (lpl_scan_plugins vcmp hashCreateOk arrayAllocOk dirs).events) :
    ∃ d ∈ dirs, ∃ e ∈ LDirContent.entries d.2,
      path = mkDescriptorPath d.1 (dirTrimLen d.1) e.name ∧
      ∃ c cs, e.name.data = c :: cs ∧ c ≠ '.' := by
  unfold lpl_scan_plugins at hp
  split at hp
  · simp at hp
  · split at hp
    · rcases lplDirsFold_parseCall _ _ _ _ hp with h2 | h2
      · simp at h2
      · exact h2
    · simp only [List.mem_append] at hp
      rcases hp with hp | hp
      · rcases lplDirsFold_parseCall _ _ _ _ hp with h2 | h2
        · simp at h2
        · exact h2
      · exact absurd hp (by simp)

/-- Claim C7: for every directory entry that is empty or whose first
byte is `.`, the local loader's scan never invokes the descriptor parser
on a path having that entry as its final component — every parsed path's
final component is non-empty and does not start with `.` (provided, as
on a real filesystem, that entry names do not contain the path
separator). -/
theorem claim_C7 (vcmp : String → String → Int)
    (hashCreateOk arrayAllocOk : Bool)
    (dirs : List (String × LDirContent)) (path : String)
    (hsep : ∀ d ∈ dirs, ∀ e ∈ LDirContent.entries d.2,
      CP_FNAMESEP_CHAR ∉ e.name.data)
    (hp : LEvent.parseCall path ∈
      (lpl_scan_plugins vcmp hashCreateOk arrayAllocOk dirs).events) :
    ∃ c cs, (lastComponent path).data = c :: cs ∧ c ≠ '.' := by
  obtain ⟨d, hd, e, he, hpath, c, cs, hname, hdot⟩ :=
    lplScan_parseCall vcmp hashCreateOk arrayAllocOk dirs path hp
  subst hpath
  rw [lastComponent_mkDescriptorPath _ _ _ (hsep d hd e he)]
  exact ⟨c, cs, hname, hdot⟩

/-- Witness for claim C7: in a directory containing `.x` and `good`, the
parser is invoked on `/d/good`, whose final component is non-empty and
not dot-initial. -/
theorem claim_C7_witness :
    (∀ d ∈ wdirs, ∀ e ∈ LDirContent.entries d.2,
      CP_FNAMESEP_CHAR ∉ e.name.data) ∧
    LEvent.parseCall "/d/good" ∈ (lpl_scan_plugins vcmp0 true true wdirs).events ∧
    ∃ c cs, (lastComponent "/d/good").data = c :: cs ∧ c ≠ '.' :=
  ⟨by decide, by decide,
    claim_C7 vcmp0 true true wdirs "/d/good" (by decide) (by decide)⟩

/-! ### Scan engine claims -/

theorem upgradeCond_iff (vcmp : String → String → Int)
    (ipv pv : Option String) :
    upgradeCond vcmp ipv pv = true ↔ verGt vcmp pv ipv := by
  match ipv, pv with
  | none, none => simp [upgradeCond, verGt, cpi_vercmp]
  | none, some b => simp [upgradeCond, verGt, cpi_vercmp]
  | some a, none => simp [upgradeCond, verGt, cpi_vercmp]
  | some a, some b => simp [upgradeCond, verGt, cpi_vercmp]

theorem maybeStopAll_events (cond : Bool) (st : EngineState) :
    ∃ l, (maybeStopAll cond st).events = st.events ++ l ∧
      (∀ id, Event.uninstall id ∉ l) ∧ (∀ id, Event.install id ∉ l) := by
  unfold maybeStopAll
  split
  · exact ⟨[Event.stopAll], rfl, by simp, by simp⟩
  · exact ⟨[], by simp, by simp, by simp⟩

theorem maybeStopAll_fields (cond : Bool) (st : EngineState) :
    (maybeStopAll cond st).registry = st.registry ∧
    (maybeStopAll cond st).l2p = st.l2p ∧
    (maybeStopAll cond st).status = st.status ∧
    (maybeStopAll cond st).avail = st.avail := by
  unfold maybeStopAll
  split <;> exact ⟨rfl, rfl, rfl, rfl⟩

theorem phaseCInstall_events (flags : Flags)
    (installStatus : String → Nat → CpStatus)
    (reserveOk : Nat → String → Bool) (st : EngineState) (ae : AvailEntry) :
    ∃ l, (phaseCInstall flags installStatus reserveOk st ae).state.events =
        st.events ++ l ∧ ∀ id, Event.uninstall id ∉ l := by
  obtain ⟨l1, hl1, hu1, _⟩ := maybeStopAll_events flags.stopAllOnInstall st
  unfold phaseCInstall
  split
  · split
    · refine ⟨l1 ++ [Event.install ae.info.identifier, Event.releaseInfo ae.info], ?_, ?_⟩
      · show (maybeStopAll flags.stopAllOnInstall st).events ++ _ = _
        rw [hl1, List.append_assoc]
      · intro id
        simp only [List.mem_append, List.mem_cons, List.mem_singleton]
        rintro (h | h | h | h) <;> first | exact hu1 id h | cases h
    · refine ⟨l1, ?_, hu1⟩
      show (maybeStopAll flags.stopAllOnInstall st).events = _
      rw [hl1]
  · exact ⟨l1, hl1, hu1⟩

/-- Claim C2: for an `avail` entry whose identifier is already
installed, Phase C uninstalls the installed plug-in for upgrade exactly
when the `CP_SP_UPGRADE` flag is set and the new version compares
strictly greater than the installed one under `cpi_vercmp`, whose
nullness rule makes `null` less than any non-null version and two
`null` versions not strictly greater than one another. -/
theorem claim_C2 (vcmp : String → String → Int) (flags : Flags)
    (installStatus : String → Nat → CpStatus)
    (reserveOk : Nat → String → Bool) (st : EngineState) (ae : AvailEntry)
    (ipi : PluginInfo)
    (h : regLookup st.registry ae.info.identifier = some ipi) :
    Event.uninstall ae.info.identifier ∈
      ((phaseCEntry vcmp flags installStatus reserveOk st ae).state.events.drop
        st.events.length) ↔
      (flags.upgrade = true ∧ verGt vcmp ae.info.version ipi.version) := by
  unfold phaseCEntry
  rw [h]
  simp only []
  split
  · rename_i hcond
    obtain ⟨hup, hgt⟩ := hcond
    obtain ⟨l1, hl1, _, _⟩ :=
      maybeStopAll_events (flags.stopAllOnUpgrade || flags.stopAllOnInstall) st
    obtain ⟨l2, hl2, _⟩ := phaseCInstall_events flags installStatus reserveOk
      (uninstallState
        (maybeStopAll (flags.stopAllOnUpgrade || flags.stopAllOnInstall) st) ae) ae
    constructor
    · intro _
      exact ⟨hup, (upgradeCond_iff vcmp ipi.version ae.info.version).1 hgt⟩
    · intro _
      rw [hl2]
      show Event.uninstall ae.info.identifier ∈
        (((maybeStopAll (flags.stopAllOnUpgrade || flags.stopAllOnInstall) st).events ++
          [Event.uninstall ae.info.identifier]) ++ l2).drop st.events.length
      rw [hl1, List.append_assoc, List.append_assoc, List.drop_left]
      simp
  · rename_i hcond
    have hdrop : (CStep.state (CStep.cont
        { st with events := st.events ++ [Event.releaseInfo ae.info] })).events.drop
          st.events.length = [Event.releaseInfo ae.info] := by
      show (st.events ++ [Event.releaseInfo ae.info]).drop st.events.length = _
      rw [List.drop_left]
    rw [hdrop]
    constructor
    · intro hmem
      simp at hmem
    · rintro ⟨hup, hgt⟩
      exact absurd ((upgradeCond_iff vcmp ipi.version ae.info.version).2 hgt)
        (fun huc => hcond ⟨by simpa using hup, by simpa using huc⟩)

/-- Witness for claim C2: with `p@1.0` installed and `p@2.0.1` in
`avail` under `CP_SP_UPGRADE`, the uninstall-for-upgrade decision and
the strictly-greater version relation coincide. -/
theorem claim_C2_witness :
    regLookup wst2.registry (AvailEntry.mk wp2 0).info.identifier = some wp1 ∧
    (Event.uninstall (AvailEntry.mk wp2 0).info.identifier ∈
      ((phaseCEntry vcmp0 ⟨true, false, false, false⟩ (fun _ _ => CpStatus.ok)
          (fun _ _ => true) wst2 (AvailEntry.mk wp2 0)).state.events.drop
        wst2.events.length) ↔
      (Flags.upgrade ⟨true, false, false, false⟩ = true ∧
        verGt vcmp0 (AvailEntry.mk wp2 0).info.version wp1.version)) :=
  ⟨by decide,
    claim_C2 vcmp0 ⟨true, false, false, false⟩ (fun _ _ => CpStatus.ok)
      (fun _ _ => true) wst2 (AvailEntry.mk wp2 0) wp1 (by decide)⟩

/-- Claim C6, evaluated at the failing input: when the Phase B
`hash_alloc_insert` into `avail_plugins` fails for a plug-in, the engine
has issued `cpi_use_info` for it (pscan.c line 163 runs regardless of
the insertion outcome) but the whole scan issues no `cp_release_info`
for it — the reference-count balance the claim asserts is violated. -/
theorem claim_C6 :
    (cp_scan_plugins vcmp0 winp6).events = [Event.useInfo wp6] ∧
    ((cp_scan_plugins vcmp0 winp6).events.countP
      (fun ev => decide (ev = Event.useInfo wp6))) = 1 ∧
    ((cp_scan_plugins vcmp0 winp6).events.countP
      (fun ev => decide (ev = Event.releaseInfo wp6 ∨ ev = Event.releaseArray wp6))) = 0 := by
  refine ⟨by decide, by decide, by decide⟩

/-- Counterexample to claim C3 as stated: with two snapshotted plug-ins
whose restarts fail with `CP_ERR_IO` then `CP_ERR_MALFORMED`, the scan
returns the LAST non-OK start code, not the first — pscan.c line 280
overwrites the status on every failing start. -/
theorem claim_C3_counterexample :
    (cp_scan_plugins vcmp0 winp3).status = CpStatus.errMalformed ∧
    CpStatus.errMalformed ≠ CpStatus.errIO ∧
    (cp_scan_plugins vcmp0 winp3).events = [Event.start "a", Event.start "b"] := by
  refine ⟨by decide, by decide, by decide⟩

/-! #### Phase B characterization -/

theorem scanEntryStep_ok (vcmp : String → String → Int) (lid : Nat)
    (st : EngineState) (e : ScanEntry) (h1 : e.apMallocOk = true)
    (h2 : e.insertOk = true) :
    ∃ delta,
      scanEntryStep vcmp lid st e =
        { st with avail := reconcileStep vcmp st.avail e.info lid,
                  events := st.events ++ delta } ∧
      ∀ ev ∈ delta, isBEvent ev = true := by
  cases hl : availLookup st.avail e.info.identifier with
  | none =>
      refine ⟨[Event.useInfo e.info], ?_, by simp [isBEvent]⟩
      simp only [scanEntryStep, reconcileStep, hl]
      simp [scanEntryInsert, h1, h2]
  | some ae =>
      by_cases hv : 0 < cpi_vercmp vcmp e.info.version ae.info.version
      · refine ⟨[Event.releaseInfo ae.info, Event.useInfo e.info], ?_, by simp [isBEvent]⟩
        simp only [scanEntryStep, reconcileStep, hl, if_pos hv]
        simp [scanEntryInsert, h1, h2]
      · refine ⟨[], ?_, by simp⟩
        simp only [scanEntryStep, reconcileStep, hl, if_neg hv]
        simp

theorem scanFoldEntries_ok (vcmp : String → String → Int) (lid : Nat)
    (entries : List ScanEntry) (st : EngineState)
    (h : ∀ e ∈ entries, e.apMallocOk = true ∧ e.insertOk = true) :
    ∃ delta,
      entries.foldl (scanEntryStep vcmp lid) st =
        { st with
            avail := (entries.map (fun e => (e.info, lid))).foldl
              (fun av pl => reconcileStep vcmp av pl.1 pl.2) st.avail,
            events := st.events ++ delta } ∧
      ∀ ev ∈ delta, isBEvent ev = true := by
  induction entries generalizing st with
  | nil => exact ⟨[], by simp, by simp⟩
  | cons e rest ih =>
      obtain ⟨d1, he, hb1⟩ :=
        scanEntryStep_ok vcmp lid st e (h e (by simp)).1 (h e (by simp)).2
      obtain ⟨d2, he2, hb2⟩ :=
        ih { st with avail := reconcileStep vcmp st.avail e.info lid,
                     events := st.events ++ d1 }
          (fun e2 m => h e2 (by simp [m]))
      refine ⟨d1 ++ d2, ?_, ?_⟩
      · rw [List.foldl_cons, he, he2]
        simp [List.append_assoc]
      · intro ev hm
        rcases List.mem_append.mp hm with h' | h'
        exacts [hb1 _ h', hb2 _ h']

theorem scanLoaderStep_ok (vcmp : String → String → Int) (st : EngineState)
    (L : LoaderInput)
    (h : ∀ e ∈ L.result.getD [], e.apMallocOk = true ∧ e.insertOk = true) :
    ∃ delta,
      scanLoaderStep vcmp st L =
        { st with
            avail := ((L.result.getD []).map (fun e => (e.info, L.lid))).foldl
              (fun av pl => reconcileStep vcmp av pl.1 pl.2) st.avail,
            events := st.events ++ delta } ∧
      ∀ ev ∈ delta, isBEvent ev = true := by
  unfold scanLoaderStep
  cases hr : L.result with
  | none => exact ⟨[], by simp [hr], by simp⟩
  | some entries =>
      obtain ⟨d1, he, hb⟩ := scanFoldEntries_ok vcmp L.lid entries st
        (by rw [hr] at h; simpa using h)
      simp only [hr, Option.getD_some]
      split
      · exact ⟨d1, he, hb⟩
      · refine ⟨d1 ++ entries.map (fun e => Event.releaseArray e.info), ?_, ?_⟩
        · rw [he]
          simp [List.append_assoc]
        · intro ev hm
          rcases List.mem_append.mp hm with h' | h'
          · exact hb _ h'
          · obtain ⟨e2, _, rfl⟩ := List.mem_map.mp h'
            rfl

theorem scanFoldLoaders_ok (vcmp : String → String → Int)
    (loaders : List LoaderInput) (st : EngineState)
    (h : ∀ L ∈ loaders, ∀ e ∈ L.result.getD [],
      e.apMallocOk = true ∧ e.insertOk = true) :
    ∃ delta,
      loaders.foldl (scanLoaderStep vcmp) st =
        { st with
            avail := (inputPairs loaders).foldl
              (fun av pl => reconcileStep vcmp av pl.1 pl.2) st.avail,
            events := st.events ++ delta } ∧
      ∀ ev ∈ delta, isBEvent ev = true := by
  induction loaders generalizing st with
  | nil => exact ⟨[], by simp [inputPairs], by simp⟩
  | cons L rest ih =>
      obtain ⟨d1, he, hb1⟩ := scanLoaderStep_ok vcmp st L (h L (by simp))
      obtain ⟨d2, he2, hb2⟩ :=
        ih { st with
              avail := ((L.result.getD []).map (fun e => (e.info, L.lid))).foldl
                (fun av pl => reconcileStep vcmp av pl.1 pl.2) st.avail,
              events := st.events ++ d1 }
          (fun L2 m => h L2 (by simp [m]))
      refine ⟨d1 ++ d2, ?_, ?_⟩
      · rw [List.foldl_cons, he, he2]
        simp [inputPairs, List.append_assoc, List.foldl_append]
      · intro ev hm
        rcases List.mem_append.mp hm with h' | h'
        exacts [hb1 _ h', hb2 _ h']

/-! #### Phase C characterization -/

theorem filter_eraseP {α : Type} (l : List α) (p q : α → Bool)
    (h : ∀ x, p x = true → q x = false) :
    (l.eraseP p).filter q = l.filter q := by
  induction l with
  | nil => rfl
  | cons a t ih =>
      cases hp : p a with
      | true => simp [List.eraseP_cons, hp, List.filter_cons, h a hp]
      | false => simp [List.eraseP_cons, hp, List.filter_cons, ih]

theorem maybeStopAll_stopOnly (cond : Bool) (st : EngineState) :
    ∃ l, (maybeStopAll cond st).events = st.events ++ l ∧
      ∀ ev ∈ l, ev = Event.stopAll := by
  unfold maybeStopAll
  split
  · exact ⟨[Event.stopAll], rfl, by simp⟩
  · exact ⟨[], by simp, by simp⟩

theorem phaseCInstall_allok (flags : Flags)
    (installStatus : String → Nat → CpStatus) (reserveOk : Nat → String → Bool)
    (st : EngineState) (ae : AvailEntry)
    (hr : reserveOk ae.lid ae.info.identifier = true)
    (hi : installStatus ae.info.identifier ae.lid = CpStatus.ok) :
    phaseCInstall flags installStatus reserveOk st ae =
      CStep.cont
        (installOkState (reserveAdd (maybeStopAll flags.stopAllOnInstall st) ae) ae) := by
  unfold phaseCInstall
  rw [hr, hi]
  simp

theorem phaseCEntry_fresh (vcmp : String → String → Int) (flags : Flags)
    (installStatus : String → Nat → CpStatus) (reserveOk : Nat → String → Bool)
    (st : EngineState) (ae : AvailEntry)
    (hlook : regLookup st.registry ae.info.identifier = none)
    (hr : reserveOk ae.lid ae.info.identifier = true)
    (hi : installStatus ae.info.identifier ae.lid = CpStatus.ok) :
    phaseCEntry vcmp flags installStatus reserveOk st ae =
      CStep.cont
        (installOkState (reserveAdd (maybeStopAll flags.stopAllOnInstall st) ae) ae) := by
  simp only [phaseCEntry, hlook]
  exact phaseCInstall_allok flags installStatus reserveOk st ae hr hi

theorem phaseCEntry_allok (vcmp : String → String → Int) (flags : Flags)
    (installStatus : String → Nat → CpStatus) (reserveOk : Nat → String → Bool)
    (st : EngineState) (ae : AvailEntry)
    (hr : reserveOk ae.lid ae.info.identifier = true)
    (hi : installStatus ae.info.identifier ae.lid = CpStatus.ok) :
    ∃ st2 delta,
      phaseCEntry vcmp flags installStatus reserveOk st ae = CStep.cont st2 ∧
      st2.status = st.status ∧
      st2.events = st.events ++ delta ∧
      (∀ id, Event.start id ∉ delta) ∧
      (∀ id, ae.info.identifier ≠ id →
        regFilter st2.registry id = regFilter st.registry id ∧
        delta.countP (isInstallOf id) = 0) ∧
      delta.countP (isInstallOf ae.info.identifier) ≤ 1 := by
  cases hlook : regLookup st.registry ae.info.identifier with
  | none =>
      rw [phaseCEntry_fresh vcmp flags installStatus reserveOk st ae hlook hr hi]
      obtain ⟨l1, hl1, hstop⟩ := maybeStopAll_stopOnly flags.stopAllOnInstall st
      refine ⟨_, l1 ++ [Event.install ae.info.identifier, Event.releaseInfo ae.info],
        rfl, ?_, ?_, ?_, ?_, ?_⟩
      · exact ((maybeStopAll_fields flags.stopAllOnInstall st).2.2.1)
      · show (maybeStopAll flags.stopAllOnInstall st).events ++ _ = _
        rw [hl1, List.append_assoc]
      · intro id hmem
        rcases List.mem_append.mp hmem with hmem | hmem
        · exact absurd (hstop _ hmem) (by simp)
        · simp at hmem
      · intro id hne
        constructor
        · show regFilter ((maybeStopAll flags.stopAllOnInstall st).registry ++
            [(ae.info.identifier, ae.info)]) id = _
          rw [(maybeStopAll_fields flags.stopAllOnInstall st).1]
          unfold regFilter
          rw [List.filter_append]
          have : (List.filter (fun x => x.1 == id)
              [(ae.info.identifier, ae.info)]) = [] := by
            simp [hne]
          rw [this, List.append_nil]
        · rw [List.countP_append]
          have h1 : l1.countP (isInstallOf id) = 0 := by
            rw [List.countP_eq_zero]
            intro ev hev
            rw [hstop _ hev]
            simp [isInstallOf]
          have h2 : List.countP (isInstallOf id)
              [Event.install ae.info.identifier, Event.releaseInfo ae.info] = 0 := by
            simp [List.countP_cons, isInstallOf, hne]
          omega
      · rw [List.countP_append]
        have h1 : l1.countP (isInstallOf ae.info.identifier) = 0 := by
          rw [List.countP_eq_zero]
          intro ev hev
          rw [hstop _ hev]
          simp [isInstallOf]
        have h2 : List.countP (isInstallOf ae.info.identifier)
            [Event.install ae.info.identifier, Event.releaseInfo ae.info] ≤ 1 := by
          simp [List.countP_cons, isInstallOf]
        omega
  | some ipi =>
      simp only [phaseCEntry, hlook]
      split
      · rw [phaseCInstall_allok flags installStatus reserveOk _ ae hr hi]
        obtain ⟨l1, hl1, hstop1⟩ :=
          maybeStopAll_stopOnly (flags.stopAllOnUpgrade || flags.stopAllOnInstall) st
        obtain ⟨l2, hl2, hstop2⟩ := maybeStopAll_stopOnly flags.stopAllOnInstall
          (uninstallState
            (maybeStopAll (flags.stopAllOnUpgrade || flags.stopAllOnInstall) st) ae)
        refine ⟨_, (l1 ++ [Event.uninstall ae.info.identifier]) ++
          (l2 ++ [Event.install ae.info.identifier, Event.releaseInfo ae.info]),
          rfl, ?_, ?_, ?_, ?_, ?_⟩
        · exact (maybeStopAll_fields flags.stopAllOnInstall _).2.2.1.trans
            ((maybeStopAll_fields _ st).2.2.1)
        · show (maybeStopAll flags.stopAllOnInstall
              (uninstallState
                (maybeStopAll (flags.stopAllOnUpgrade || flags.stopAllOnInstall) st) ae)).events
              ++ _ = _
          rw [hl2]
          show ((maybeStopAll (flags.stopAllOnUpgrade || flags.stopAllOnInstall) st).events ++
            [Event.uninstall ae.info.identifier]) ++ l2 ++ _ = _
          rw [hl1]
          simp [List.append_assoc]
        · intro id hmem
          rcases List.mem_append.mp hmem with hmem | hmem
          · rcases List.mem_append.mp hmem with hmem | hmem
            · exact absurd (hstop1 _ hmem) (by simp)
            · simp at hmem
          · rcases List.mem_append.mp hmem with hmem | hmem
            · exact absurd (hstop2 _ hmem) (by simp)
            · simp at hmem
        · intro id hne
          constructor
          · show regFilter ((maybeStopAll flags.stopAllOnInstall _).registry ++
              [(ae.info.identifier, ae.info)]) id = _
            rw [(maybeStopAll_fields flags.stopAllOnInstall _).1]
            show regFilter
              (regRemove (maybeStopAll (flags.stopAllOnUpgrade || flags.stopAllOnInstall)
                st).registry ae.info.identifier ++ [(ae.info.identifier, ae.info)]) id = _
            rw [(maybeStopAll_fields _ st).1]
            unfold regFilter regRemove
            rw [List.filter_append, filter_eraseP]
            · have : (List.filter (fun x => x.1 == id)
                  [(ae.info.identifier, ae.info)]) = [] := by
                simp [hne]
              rw [this, List.append_nil]
            · intro x hx
              simp only [beq_iff_eq] at hx
              simp [hx, hne]
          · rw [List.countP_append, List.countP_append]
            have hc1 : l1.countP (isInstallOf id) = 0 := by
              rw [List.countP_eq_zero]
              intro ev hev
              rw [hstop1 _ hev]
              simp [isInstallOf]
            have hc2 : l2.countP (isInstallOf id) = 0 := by
              rw [List.countP_eq_zero]
              intro ev hev
              rw [hstop2 _ hev]
              simp [isInstallOf]
            have hc3 : List.countP (isInstallOf id)
                [Event.uninstall ae.info.identifier] = 0 := by
              simp [List.countP_cons, isInstallOf]
            have hc4 : List.countP (isInstallOf id)
                [Event.install ae.info.identifier, Event.releaseInfo ae.info] = 0 := by
              simp [List.countP_cons, isInstallOf, hne]
            rw [List.countP_append]
            omega
        · rw [List.countP_append, List.countP_append, List.countP_append]
          have hc1 : l1.countP (isInstallOf ae.info.identifier) = 0 := by
            rw [List.countP_eq_zero]
            intro ev hev
            rw [hstop1 _ hev]
            simp [isInstallOf]
          have hc2 : l2.countP (isInstallOf ae.info.identifier) = 0 := by
            rw [List.countP_eq_zero]
            intro ev hev
            rw [hstop2 _ hev]
            simp [isInstallOf]
          have hc3 : List.countP (isInstallOf ae.info.identifier)
              [Event.uninstall ae.info.identifier] = 0 := by
            simp [List.countP_cons, isInstallOf]
          have hc4 : List.countP (isInstallOf ae.info.identifier)
              [Event.install ae.info.identifier, Event.releaseInfo ae.info] ≤ 1 := by
            simp [List.countP_cons, isInstallOf]
          omega
      · refine ⟨_, [Event.releaseInfo ae.info], rfl, rfl, rfl, ?_, ?_, ?_⟩
        · intro id hmem
          simp at hmem
        · intro id _
          exact ⟨rfl, by simp [List.countP_cons, isInstallOf]⟩
        · simp [List.countP_cons, isInstallOf]

theorem phaseCRun_allok (vcmp : String → String → Int) (flags : Flags)
    (installStatus : String → Nat → CpStatus) (reserveOk : Nat → String → Bool)
    (l : List AvailEntry) (st : EngineState)
    (h : ∀ ae ∈ l, reserveOk ae.lid ae.info.identifier = true ∧
      installStatus ae.info.identifier ae.lid = CpStatus.ok) :
    ∃ st2 delta,
      phaseCRun vcmp flags installStatus reserveOk st l = (st2, []) ∧
      st2.status = st.status ∧
      st2.events = st.events ++ delta ∧
      (∀ id, Event.start id ∉ delta) ∧
      (∀ id, delta.countP (isInstallOf id) ≤
        (l.map (fun ae => ae.info.identifier)).count id) ∧
      (∀ id, (∀ ae ∈ l, ae.info.identifier ≠ id) →
        regFilter st2.registry id = regFilter st.registry id) := by
  induction l generalizing st with
  | nil => exact ⟨st, [], rfl, rfl, by simp, by simp, by simp, by simp⟩
  | cons ae rest ih =>
      obtain ⟨st1, d1, heq1, hs1, hev1, hns1, hfc1, hown1⟩ :=
        phaseCEntry_allok vcmp flags installStatus reserveOk st ae
          (h ae (by simp)).1 (h ae (by simp)).2
      obtain ⟨st2, d2, heq2, hs2, hev2, hns2, hcnt2, hreg2⟩ :=
        ih st1 (fun ae2 m => h ae2 (by simp [m]))
      refine ⟨st2, d1 ++ d2, ?_, hs2.trans hs1, ?_, ?_, ?_, ?_⟩
      · simp only [phaseCRun, heq1]
        exact heq2
      · rw [hev2, hev1, List.append_assoc]
      · intro id hmem
        rcases List.mem_append.mp hmem with hmem | hmem
        · exact hns1 id hmem
        · exact hns2 id hmem
      · intro id
        rw [List.countP_append, List.map_cons, List.count_cons]
        by_cases hne : ae.info.identifier = id
        · have := hown1
          have hcr := hcnt2 id
          subst hne
          simp only [beq_self_eq_true, if_pos]
          omega
        · have hz := (hfc1 id hne).2
          have hcr := hcnt2 id
          have : (ae.info.identifier == id) = false := by
            simp [hne]
          rw [this]
          omega
      · intro id hall
        have hne : ae.info.identifier ≠ id := hall ae (by simp)
        rw [hreg2 id (fun ae2 m => hall ae2 (by simp [m])), (hfc1 id hne).1]

theorem phaseD_some (startStatus : String → CpStatus) (st : EngineState)
    (ids : List String) :
    phaseD startStatus st (some ids) =
      { st with status := lastNonOk startStatus ids st.status,
                events := st.events ++ ids.map Event.start } := by
  induction ids generalizing st with
  | nil => simp [phaseD, lastNonOk]
  | cons id rest ih =>
      simp only [phaseD, List.foldl_cons] at ih ⊢
      by_cases hok : startStatus id = CpStatus.ok
      · rw [if_pos hok, ih]
        simp [lastNonOk, List.foldl_cons, hok]
      · rw [if_neg hok, ih]
        simp [lastNonOk, List.foldl_cons, hok]

theorem snapshotLoop_allok (ps : String → PluginState) (s n : String → Bool)
    (reg : List (String × PluginInfo)) (hs : ∀ id, s id = true)
    (hn : ∀ id, n id = true) :
    (snapshotLoop ps s n reg).1 = CpStatus.ok := by
  induction reg with
  | nil => rfl
  | cons x rest ih =>
      simp only [snapshotLoop, hs, hn]
      split
      · simpa using ih
      · exact ih

theorem isStart_false_of_isBEvent {ev : Event} (h : isBEvent ev = true) :
    isStart ev = false := by
  cases ev <;> first | rfl | cases h

/-- Claim C3 (amended): when Phases A-C encounter no failure, the value
returned by `cp_scan_plugins` is `CP_OK` if every Phase D start call
succeeds and otherwise the LAST non-OK start code — each failing start
overwrites the status, so later failures replace earlier ones (and
would likewise replace an earlier phase error) — and a start failure
does not stop further restart attempts: every snapshotted identifier
receives exactly one start call, in snapshot order. -/
theorem claim_C3 (vcmp : String → String → Int) (inp : ScanInput)
    (hflag1 : inp.flags.restartActive = true)
    (hflag2 : inp.flags.upgrade = true ∨ inp.flags.stopAllOnInstall = true)
    (hA1 : inp.getPluginsInfoFail = none)
    (hA2 : inp.startedListOk = true)
    (hA3 : ∀ id, inp.strdupOk id = true)
    (hA4 : ∀ id, inp.nodeOk id = true)
    (hHash : inp.availHashOk = true)
    (hB : ∀ L ∈ inp.loaders, ∀ e ∈ L.result.getD [],
      e.apMallocOk = true ∧ e.insertOk = true)
    (hres : ∀ lid id, inp.reserveOk lid id = true)
    (hinst : ∀ id lid, inp.installStatus id lid = CpStatus.ok) :
    (cp_scan_plugins vcmp inp).status =
      lastNonOk inp.startStatus
        (snapshotLoop inp.pluginState inp.strdupOk inp.nodeOk inp.registry).2
        CpStatus.ok ∧
    (cp_scan_plugins vcmp inp).events.filter isStart =
      ((snapshotLoop inp.pluginState inp.strdupOk inp.nodeOk inp.registry).2).map
        Event.start := by
  have hcond : (inp.flags.restartActive ∧
      (inp.flags.upgrade ∨ inp.flags.stopAllOnInstall)) := by
    refine ⟨by simp [hflag1], ?_⟩
    rcases hflag2 with h | h
    · exact Or.inl (by simp [h])
    · exact Or.inr (by simp [h])
  have hsnap1 : (snapshotLoop inp.pluginState inp.strdupOk inp.nodeOk
      inp.registry).1 = CpStatus.ok :=
    snapshotLoop_allok inp.pluginState inp.strdupOk inp.nodeOk inp.registry hA3 hA4
  unfold cp_scan_plugins
  rw [if_pos hcond, hA1]
  simp only [hA2, not_true, if_neg, ite_false, if_false]
  unfold scanMain
  rw [if_neg (by simp [hHash])]
  simp only []
  obtain ⟨dB, hBeq, hBev⟩ := scanFoldLoaders_ok vcmp inp.loaders
    ⟨(snapshotLoop inp.pluginState inp.strdupOk inp.nodeOk inp.registry).1,
      inp.registry, initL2p inp.loaders, false, [], []⟩ hB
  rw [hBeq]
  dsimp only
  obtain ⟨st2, dC, hCeq, hCs, hCev, hCns, _, _⟩ :=
    phaseCRun_allok vcmp inp.flags inp.installStatus inp.reserveOk
      (reconcile vcmp (inputPairs inp.loaders))
      { status := (snapshotLoop inp.pluginState inp.strdupOk inp.nodeOk inp.registry).1,
        registry := inp.registry, l2p := initL2p inp.loaders, stopped := false,
        avail := reconcile vcmp (inputPairs inp.loaders), events := [] ++ dB }
      (fun ae _ => ⟨hres ae.lid ae.info.identifier, hinst ae.info.identifier ae.lid⟩)
  rw [show List.foldl (fun av pl => reconcileStep vcmp av pl.1 pl.2) []
      (inputPairs inp.loaders) = reconcile vcmp (inputPairs inp.loaders) from rfl]
  rw [hCeq]
  rw [phaseD_some]
  dsimp only at hCs hCev ⊢
  have hfB : dB.filter isStart = [] := by
    rw [List.filter_eq_nil_iff]
    intro ev hev
    rw [isStart_false_of_isBEvent (hBev ev hev)]
    simp
  have hfC : dC.filter isStart = [] := by
    rw [List.filter_eq_nil_iff]
    intro ev hev
    cases ev <;> simp [isStart]
    rename_i id
    exact absurd hev (hCns id)
  have hfD : (((snapshotLoop inp.pluginState inp.strdupOk inp.nodeOk
      inp.registry).2).map Event.start).filter isStart =
      ((snapshotLoop inp.pluginState inp.strdupOk inp.nodeOk
        inp.registry).2).map Event.start := by
    rw [List.filter_eq_self]
    intro ev hev
    obtain ⟨id, _, rfl⟩ := List.mem_map.mp hev
    rfl
  constructor
  · rw [hCs, hsnap1]
  · rw [hCev]
    simp [List.filter_append, hfB, hfC, hfD]

/-- Witness for the amended claim C3 at the concrete counterexample
input: the returned status is the last non-OK start code and both
snapshotted identifiers are started. -/
theorem claim_C3_witness :
    (cp_scan_plugins vcmp0 winp3).status =
      lastNonOk winp3.startStatus
        (snapshotLoop winp3.pluginState winp3.strdupOk winp3.nodeOk
          winp3.registry).2 CpStatus.ok ∧
    (cp_scan_plugins vcmp0 winp3).events.filter isStart =
      ((snapshotLoop winp3.pluginState winp3.strdupOk winp3.nodeOk
        winp3.registry).2).map Event.start :=
  claim_C3 vcmp0 winp3 rfl (Or.inl rfl) rfl rfl (fun _ => rfl) (fun _ => rfl)
    rfl (by intro L hL; simp [winp3] at hL) (fun _ _ => rfl) (fun _ _ => rfl)

/-! #### Reconciliation invariant (claim C1) -/

theorem availLookup_eq_none_iff (avail : List AvailEntry) (id : String) :
    availLookup avail id = none ↔ id ∉ availIds avail := by
  unfold availLookup availIds
  rw [List.find?_eq_none]
  constructor
  · intro h hmem
    obtain ⟨ae, hae, rfl⟩ := List.mem_map.mp hmem
    exact absurd (by simp) (h ae hae)
  · intro h ae hae hbeq
    exact h (List.mem_map.mpr ⟨ae, hae, by simpa using hbeq⟩)

theorem availLookup_some {avail : List AvailEntry} {id : String}
    {ae : AvailEntry} (h : availLookup avail id = some ae) :
    ae ∈ avail ∧ ae.info.identifier = id := by
  unfold availLookup at h
  exact ⟨List.mem_of_find?_eq_some h, by simpa using (List.find?_some h)⟩

theorem not_mem_ids_eraseP (avail : List AvailEntry) (id : String)
    (hnd : (availIds avail).Nodup) :
    id ∉ availIds (avail.eraseP (fun q => q.info.identifier == id)) := by
  induction avail with
  | nil => simp [availIds]
  | cons a t ih =>
      simp only [availIds, List.map_cons, List.nodup_cons] at hnd
      by_cases hp : a.info.identifier = id
      · rw [show (List.eraseP (fun q => q.info.identifier == id) (a :: t)) = t by
          simp [List.eraseP_cons, hp]]
        rw [← hp]
        exact fun hmem => hnd.1 (by simpa [availIds] using hmem)
      · rw [show (List.eraseP (fun q => q.info.identifier == id) (a :: t)) =
            a :: List.eraseP (fun q => q.info.identifier == id) t by
          simp [List.eraseP_cons, hp]]
        intro hmem
        simp only [availIds, List.map_cons, List.mem_cons] at hmem
        rcases hmem with h | h
        · exact hp h.symm
        · exact ih hnd.2 (by simpa [availIds] using h)

theorem mem_ids_eraseP_of_ne (avail : List AvailEntry) (id id2 : String)
    (hne : id2 ≠ id) (h : id2 ∈ availIds avail) :
    id2 ∈ availIds (avail.eraseP (fun q => q.info.identifier == id)) := by
  induction avail with
  | nil => simp [availIds] at h
  | cons a t ih =>
      simp only [availIds, List.map_cons, List.mem_cons] at h
      by_cases hp : a.info.identifier = id
      · rw [show (List.eraseP (fun q => q.info.identifier == id) (a :: t)) = t by
          simp [List.eraseP_cons, hp]]
        rcases h with h | h
        · exact absurd (h.trans hp) hne
        · simpa [availIds] using h
      · rw [show (List.eraseP (fun q => q.info.identifier == id) (a :: t)) =
            a :: List.eraseP (fun q => q.info.identifier == id) t by
          simp [List.eraseP_cons, hp]]
        simp only [availIds, List.map_cons, List.mem_cons]
        rcases h with h | h
        · exact Or.inl h
        · exact Or.inr (by simpa [availIds] using ih (by simpa [availIds] using h))

theorem reconInv_step {vcmp : String → String → Int} (ht : VcmpTrans vcmp)
    (ha : VcmpAsymm vcmp) {seen : List (PluginInfo × Nat)}
    {avail : List AvailEntry} (hinv : ReconInv vcmp seen avail)
    (p : PluginInfo) (lid : Nat) :
    ReconInv vcmp (seen ++ [(p, lid)]) (reconcileStep vcmp avail p lid) := by
  obtain ⟨hnd, hmem, hcov, hmax⟩ := hinv
  cases hl : availLookup avail p.identifier with
  | none =>
      have hstep : reconcileStep vcmp avail p lid = avail ++ [⟨p, lid⟩] := by
        simp only [reconcileStep, hl]
      have hnotin : p.identifier ∉ availIds avail :=
        (availLookup_eq_none_iff _ _).mp hl
      rw [hstep]
      refine ⟨?_, ?_, ?_, ?_⟩
      · have hids : availIds (avail ++ [⟨p, lid⟩]) =
            availIds avail ++ [p.identifier] := by simp [availIds]
        rw [hids]
        simp [List.nodup_append, hnd, hnotin]
      · intro ae hae
        rcases List.mem_append.mp hae with hae | hae
        · exact List.mem_append.mpr (Or.inl (hmem ae hae))
        · simp only [List.mem_singleton] at hae
          subst hae
          exact List.mem_append.mpr (Or.inr (by simp))
      · intro pl hpl
        rcases List.mem_append.mp hpl with hpl | hpl
        · have := hcov pl hpl
          simp only [availIds, List.map_append]
          exact List.mem_append.mpr (Or.inl (by simpa [availIds] using this))
        · simp only [List.mem_singleton] at hpl
          subst hpl
          simp [availIds]
      · intro ae hae pl hpl heq
        rcases List.mem_append.mp hae with hae | hae
        · rcases List.mem_append.mp hpl with hpl | hpl
          · exact hmax ae hae pl hpl heq
          · simp only [List.mem_singleton] at hpl
            subst hpl
            refine absurd ?_ hnotin
            simp only at heq
            rw [heq]
            exact List.mem_map.mpr ⟨ae, hae, rfl⟩
        · simp only [List.mem_singleton] at hae
          subst hae
          rcases List.mem_append.mp hpl with hpl | hpl
          · have := hcov pl hpl
            simp only at heq
            rw [heq] at this
            exact absurd this hnotin
          · simp only [List.mem_singleton] at hpl
            subst hpl
            intro hgt
            exact verGt_asymm ha hgt hgt
  | some ae0 =>
      obtain ⟨hae0_mem, hae0_id⟩ := availLookup_some hl
      by_cases hv : 0 < cpi_vercmp vcmp p.version ae0.info.version
      · have hstep : reconcileStep vcmp avail p lid =
            avail.eraseP (fun q => q.info.identifier == p.identifier) ++ [⟨p, lid⟩] := by
          simp only [reconcileStep, hl, if_pos hv]
        rw [hstep]
        have hsub : (avail.eraseP (fun q => q.info.identifier == p.identifier)).Sublist
            avail := List.eraseP_sublist _
        have hndE : (availIds (avail.eraseP
            (fun q => q.info.identifier == p.identifier))).Nodup :=
          List.Nodup.sublist (List.Sublist.map _ hsub) hnd
        have hnotinE : p.identifier ∉ availIds (avail.eraseP
            (fun q => q.info.identifier == p.identifier)) :=
          not_mem_ids_eraseP avail p.identifier hnd
        have hneE : ∀ ae ∈ avail.eraseP (fun q => q.info.identifier == p.identifier),
            ae.info.identifier ≠ p.identifier := by
          intro ae hae heq
          have hm : ae.info.identifier ∈ availIds
              (avail.eraseP (fun q => q.info.identifier == p.identifier)) :=
            List.mem_map.mpr ⟨ae, hae, rfl⟩
          rw [heq] at hm
          exact hnotinE hm
        refine ⟨?_, ?_, ?_, ?_⟩
        · have hids : availIds (avail.eraseP
              (fun q => q.info.identifier == p.identifier) ++ [⟨p, lid⟩]) =
              availIds (avail.eraseP (fun q => q.info.identifier == p.identifier)) ++
                [p.identifier] := by simp [availIds]
          rw [hids]
          simp [List.nodup_append, hndE, hnotinE]
        · intro ae hae
          rcases List.mem_append.mp hae with hae | hae
          · exact List.mem_append.mpr (Or.inl (hmem ae (hsub.subset hae)))
          · simp only [List.mem_singleton] at hae
            subst hae
            exact List.mem_append.mpr (Or.inr (by simp))
        · intro pl hpl
          rcases List.mem_append.mp hpl with hpl | hpl
          · by_cases hpe : pl.1.identifier = p.identifier
            · simp [availIds, hpe]
            · have := hcov pl hpl
              have h2 := mem_ids_eraseP_of_ne avail p.identifier pl.1.identifier hpe this
              simp only [availIds, List.map_append]
              exact List.mem_append.mpr (Or.inl (by simpa [availIds] using h2))
          · simp only [List.mem_singleton] at hpl
            subst hpl
            simp [availIds]
        · intro ae hae pl hpl heq
          rcases List.mem_append.mp hae with hae | hae
          · rcases List.mem_append.mp hpl with hpl | hpl
            · exact hmax ae (hsub.subset hae) pl hpl heq
            · simp only [List.mem_singleton] at hpl
              subst hpl
              simp only at heq
              exact absurd heq.symm (hneE ae hae)
          · simp only [List.mem_singleton] at hae
            subst hae
            rcases List.mem_append.mp hpl with hpl | hpl
            · simp only at heq
              have hmax0 := hmax ae0 hae0_mem pl hpl (heq.trans hae0_id.symm)
              intro hgt
              exact hmax0 (verGt_trans ht hgt hv)
            · simp only [List.mem_singleton] at hpl
              subst hpl
              intro hgt
              exact verGt_asymm ha hgt hgt
      · have hstep : reconcileStep vcmp avail p lid = avail := by
          simp only [reconcileStep, hl, if_neg hv]
        rw [hstep]
        refine ⟨hnd, ?_, ?_, ?_⟩
        · intro ae hae
          exact List.mem_append.mpr (Or.inl (hmem ae hae))
        · intro pl hpl
          rcases List.mem_append.mp hpl with hpl | hpl
          · exact hcov pl hpl
          · simp only [List.mem_singleton] at hpl
            subst hpl
            exact List.mem_map.mpr ⟨ae0, hae0_mem, hae0_id⟩
        · intro ae hae pl hpl heq
          rcases List.mem_append.mp hpl with hpl | hpl
          · exact hmax ae hae pl hpl heq
          · simp only [List.mem_singleton] at hpl
            subst hpl
            simp only at heq
            have : ae = ae0 := by
              apply List.inj_on_of_nodup_map hnd hae hae0_mem
              rw [hae0_id, ← heq]
            subst this
            exact hv

theorem reconInv_fold {vcmp : String → String → Int} (ht : VcmpTrans vcmp)
    (ha : VcmpAsymm vcmp) (l : List (PluginInfo × Nat)) :
    ∀ (seen : List (PluginInfo × Nat)) (avail : List AvailEntry),
      ReconInv vcmp seen avail →
      ReconInv vcmp (seen ++ l)
        (l.foldl (fun av pl => reconcileStep vcmp av pl.1 pl.2) avail) := by
  induction l with
  | nil => intro seen avail h; simpa using h
  | cons pl rest ih =>
      intro seen avail h
      have hstep := reconInv_step ht ha h pl.1 pl.2
      have := ih (seen ++ [(pl.1, pl.2)]) _ hstep
      simpa [List.append_assoc] using this

theorem reconcile_inv {vcmp : String → String → Int} (ht : VcmpTrans vcmp)
    (ha : VcmpAsymm vcmp) (l : List (PluginInfo × Nat)) :
    ReconInv vcmp l (reconcile vcmp l) := by
  have h0 : ReconInv vcmp [] [] := by
    refine ⟨by simp [availIds], by simp, by simp, by simp⟩
  have := reconInv_fold ht ha l [] [] h0
  simpa [reconcile] using this

theorem phaseCRun_append (vcmp : String → String → Int) (flags : Flags)
    (installStatus : String → Nat → CpStatus) (reserveOk : Nat → String → Bool)
    (l1 rest : List AvailEntry) (st st1 : EngineState)
    (h : phaseCRun vcmp flags installStatus reserveOk st l1 = (st1, [])) :
    phaseCRun vcmp flags installStatus reserveOk st (l1 ++ rest) =
      phaseCRun vcmp flags installStatus reserveOk st1 rest := by
  induction l1 generalizing st with
  | nil =>
      simp only [phaseCRun, Prod.mk.injEq] at h
      rw [List.nil_append, h.1]
  | cons ae t ih =>
      cases hstep : phaseCEntry vcmp flags installStatus reserveOk st ae with
      | cont st' =>
          simp only [phaseCRun, hstep] at h
          simp only [List.cons_append, phaseCRun, hstep]
          exact ih st' h
      | brk st' =>
          simp only [phaseCRun, hstep, Prod.mk.injEq] at h
          exact absurd h.2 (by simp)

theorem regLookup_eq_none_of_filter {reg : List (String × PluginInfo)}
    {id : String} (h : regFilter reg id = []) : regLookup reg id = none := by
  unfold regFilter at h
  rw [List.filter_eq_nil_iff] at h
  unfold regLookup
  rw [List.find?_eq_none.mpr h]
  rfl

theorem exists_avail_split (avail : List AvailEntry) (id : String)
    (hnd : (availIds avail).Nodup) (hmem : id ∈ availIds avail) :
    ∃ l1 ae l2, avail = l1 ++ ae :: l2 ∧ ae.info.identifier = id ∧
      (∀ ae2 ∈ l1, ae2.info.identifier ≠ id) ∧
      (∀ ae2 ∈ l2, ae2.info.identifier ≠ id) := by
  obtain ⟨ae, hae, hid⟩ := List.mem_map.mp hmem
  obtain ⟨l1, l2, rfl⟩ := List.append_of_mem hae
  have hids : availIds (l1 ++ ae :: l2) =
      availIds l1 ++ ae.info.identifier :: availIds l2 := by simp [availIds]
  rw [hids] at hnd
  have hnd2 := List.nodup_append.mp hnd
  refine ⟨l1, ae, l2, rfl, hid, ?_, ?_⟩
  · intro ae2 h2 heq
    have hin : ae.info.identifier ∈ availIds l1 :=
      List.mem_map.mpr ⟨ae2, h2, heq.trans hid.symm⟩
    exact absurd (by simp) (hnd2.2.2 hin)
  · intro ae2 h2 heq
    have hin : ae.info.identifier ∈ availIds l2 :=
      List.mem_map.mpr ⟨ae2, h2, heq.trans hid.symm⟩
    exact absurd hin (List.nodup_cons.mp hnd2.2.1).1

theorem phaseCRun_fresh_split (vcmp : String → String → Int) (flags : Flags)
    (installStatus : String → Nat → CpStatus) (reserveOk : Nat → String → Bool)
    (l1 : List AvailEntry) (ae : AvailEntry) (l2 : List AvailEntry)
    (st : EngineState)
    (hok : ∀ ae2 ∈ l1 ++ ae :: l2, reserveOk ae2.lid ae2.info.identifier = true ∧
      installStatus ae2.info.identifier ae2.lid = CpStatus.ok)
    (hne1 : ∀ ae2 ∈ l1, ae2.info.identifier ≠ ae.info.identifier)
    (hne2 : ∀ ae2 ∈ l2, ae2.info.identifier ≠ ae.info.identifier)
    (hfresh : regFilter st.registry ae.info.identifier = []) :
    ∃ st2 delta,
      phaseCRun vcmp flags installStatus reserveOk st (l1 ++ ae :: l2) =
        (st2, []) ∧
      regFilter st2.registry ae.info.identifier =
        [(ae.info.identifier, ae.info)] ∧
      st2.events = st.events ++ delta ∧
      delta.countP (isInstallOf ae.info.identifier) = 1 ∧
      (∀ id2, delta.countP (isInstallOf id2) ≤
        (availIds (l1 ++ ae :: l2)).count id2) ∧
      (∀ id2, Event.start id2 ∉ delta) ∧
      st2.status = st.status := by
  obtain ⟨stA, dA, heqA, hsA, hevA, hnsA, hcntA, hregA⟩ :=
    phaseCRun_allok vcmp flags installStatus reserveOk l1 st
      (fun ae2 m => hok ae2 (List.mem_append.mpr (Or.inl m)))
  have hfreshA : regFilter stA.registry ae.info.identifier = [] := by
    rw [hregA ae.info.identifier (fun ae2 m => hne1 ae2 m), hfresh]
  have hlook : regLookup stA.registry ae.info.identifier = none :=
    regLookup_eq_none_of_filter hfreshA
  have hmid : ae ∈ l1 ++ ae :: l2 := List.mem_append.mpr (Or.inr (by simp))
  have hstep := phaseCEntry_fresh vcmp flags installStatus reserveOk stA ae
    hlook (hok ae hmid).1 (hok ae hmid).2
  obtain ⟨lS, hlS, hstopS⟩ := maybeStopAll_stopOnly flags.stopAllOnInstall stA
  obtain ⟨stC, dC2, heqC, hsC, hevC, hnsC, hcntC, hregC⟩ :=
    phaseCRun_allok vcmp flags installStatus reserveOk l2
      (installOkState (reserveAdd (maybeStopAll flags.stopAllOnInstall stA) ae) ae)
      (fun ae2 m => hok ae2 (List.mem_append.mpr (Or.inr (by simp [m]))))
  have hcomp : phaseCRun vcmp flags installStatus reserveOk st (l1 ++ ae :: l2) =
      (stC, []) := by
    rw [phaseCRun_append vcmp flags installStatus reserveOk l1 (ae :: l2) st stA heqA]
    simp only [phaseCRun, hstep]
    exact heqC
  have hregB : (installOkState (reserveAdd
      (maybeStopAll flags.stopAllOnInstall stA) ae) ae).registry =
      stA.registry ++ [(ae.info.identifier, ae.info)] := by
    show regAdd (maybeStopAll flags.stopAllOnInstall stA).registry _ _ = _
    rw [(maybeStopAll_fields flags.stopAllOnInstall stA).1]
    rfl
  have hevB : (installOkState (reserveAdd
      (maybeStopAll flags.stopAllOnInstall stA) ae) ae).events =
      stA.events ++ (lS ++
        [Event.install ae.info.identifier, Event.releaseInfo ae.info]) := by
    show (maybeStopAll flags.stopAllOnInstall stA).events ++ _ = _
    rw [hlS, List.append_assoc]
  have hsB : (installOkState (reserveAdd
      (maybeStopAll flags.stopAllOnInstall stA) ae) ae).status = stA.status :=
    (maybeStopAll_fields flags.stopAllOnInstall stA).2.2.1
  refine ⟨stC, dA ++ ((lS ++
    [Event.install ae.info.identifier, Event.releaseInfo ae.info]) ++ dC2),
    hcomp, ?_, ?_, ?_, ?_, ?_, ?_⟩
  · rw [hregC ae.info.identifier (fun ae2 m => hne2 ae2 m), hregB]
    unfold regFilter
    rw [List.filter_append]
    have h1 : List.filter (fun x => x.1 == ae.info.identifier)
        [(ae.info.identifier, ae.info)] = [(ae.info.identifier, ae.info)] := by
      simp
    rw [h1]
    have h2 := hfreshA
    unfold regFilter at h2
    rw [h2, List.nil_append]
  · rw [hevC, hevB, hevA]
    simp [List.append_assoc]
  · rw [List.countP_append, List.countP_append]
    have hA0 : dA.countP (isInstallOf ae.info.identifier) = 0 := by
      have := hcntA ae.info.identifier
      have hz : (l1.map (fun ae2 => ae2.info.identifier)).count
          ae.info.identifier = 0 := by
        rw [List.count_eq_zero]
        intro hmem2
        obtain ⟨ae2, hm2, he2⟩ := List.mem_map.mp hmem2
        exact hne1 ae2 hm2 he2
      omega
    have hC0 : dC2.countP (isInstallOf ae.info.identifier) = 0 := by
      have := hcntC ae.info.identifier
      have hz : (l2.map (fun ae2 => ae2.info.identifier)).count
          ae.info.identifier = 0 := by
        rw [List.count_eq_zero]
        intro hmem2
        obtain ⟨ae2, hm2, he2⟩ := List.mem_map.mp hmem2
        exact hne2 ae2 hm2 he2
      omega
    have hS0 : lS.countP (isInstallOf ae.info.identifier) = 0 := by
      rw [List.countP_eq_zero]
      intro ev hev
      rw [hstopS _ hev]
      simp [isInstallOf]
    have hM1 : List.countP (isInstallOf ae.info.identifier)
        [Event.install ae.info.identifier, Event.releaseInfo ae.info] = 1 := by
      simp [List.countP_cons, List.countP_nil, isInstallOf]
    rw [List.countP_append]
    omega
  · intro id2
    rw [List.countP_append, List.countP_append, List.countP_append]
    have hS0 : lS.countP (isInstallOf id2) = 0 := by
      rw [List.countP_eq_zero]
      intro ev hev
      rw [hstopS _ hev]
      simp [isInstallOf]
    have hM : List.countP (isInstallOf id2)
        [Event.install ae.info.identifier, Event.releaseInfo ae.info] =
        if ae.info.identifier == id2 then 1 else 0 := by
      by_cases he : ae.info.identifier = id2
      · simp [List.countP_cons, List.countP_nil, isInstallOf, he]
      · simp [List.countP_cons, List.countP_nil, isInstallOf, he]
    have hcount : (availIds (l1 ++ ae :: l2)).count id2 =
        (availIds l1).count id2 + ((if ae.info.identifier == id2 then 1 else 0) +
          (availIds l2).count id2) := by
      simp only [availIds, List.map_append, List.map_cons, List.count_append,
        List.count_cons]
      by_cases he : ae.info.identifier = id2
      · simp [he]
        omega
      · simp [he]
    rw [hcount]
    have h1 := hcntA id2
    have h2 := hcntC id2
    simp only [availIds] at *
    rw [hM]
    omega
  · intro id2 hmem2
    rcases List.mem_append.mp hmem2 with h | h
    · exact hnsA id2 h
    · rcases List.mem_append.mp h with h | h
      · rcases List.mem_append.mp h with h | h
        · exact absurd (hstopS _ h) (by simp)
        · simp at h
      · exact hnsC id2 h
  · rw [hsC, hsB, hsA]

theorem isInstallOf_false_of_isBEvent {ev : Event} (h : isBEvent ev = true)
    (id : String) : isInstallOf id ev = false := by
  cases ev <;> first | rfl | cases h

theorem scanMain_C1 (vcmp : String → String → Int) (inp : ScanInput)
    (s0 : CpStatus) (restart : Option (List String))
    (ht : VcmpTrans vcmp) (ha : VcmpAsymm vcmp)
    (hHash : inp.availHashOk = true)
    (hB : ∀ L ∈ inp.loaders, ∀ e ∈ L.result.getD [],
      e.apMallocOk = true ∧ e.insertOk = true)
    (hres : ∀ lid id, inp.reserveOk lid id = true)
    (hinst : ∀ id lid, inp.installStatus id lid = CpStatus.ok)
    (id : String) (hin : id ∈ inputIds inp.loaders)
    (hfresh : regFilter inp.registry id = []) :
    (∃ p lid, (p, lid) ∈ inputPairs inp.loaders ∧ p.identifier = id ∧
      regFilter (scanMain vcmp inp s0 restart).registry id = [(id, p)] ∧
      (∀ q lid2, (q, lid2) ∈ inputPairs inp.loaders → q.identifier = id →
        ¬ verGt vcmp q.version p.version) ∧
      (scanMain vcmp inp s0 restart).events.countP (isInstallOf id) = 1) ∧
    (∀ id2, (scanMain vcmp inp s0 restart).events.countP (isInstallOf id2) ≤ 1) := by
  unfold scanMain
  rw [if_neg (by simp [hHash])]
  simp only []
  obtain ⟨dB, hBeq, hBev⟩ := scanFoldLoaders_ok vcmp inp.loaders
    ⟨s0, inp.registry, initL2p inp.loaders, false, [], []⟩ hB
  rw [hBeq]
  dsimp only
  rw [show List.foldl (fun av pl => reconcileStep vcmp av pl.1 pl.2) []
      (inputPairs inp.loaders) = reconcile vcmp (inputPairs inp.loaders) from rfl]
  obtain ⟨hnd, hmemInv, hcov, hmax⟩ := reconcile_inv ht ha (inputPairs inp.loaders)
  have hidav : id ∈ availIds (reconcile vcmp (inputPairs inp.loaders)) := by
    obtain ⟨pl, hpl, hplid⟩ := List.mem_map.mp hin
    have := hcov pl hpl
    rwa [hplid] at this
  obtain ⟨l1, ae, l2, hsplit, haeid, hne1, hne2⟩ :=
    exists_avail_split _ id hnd hidav
  have haemem : ae ∈ reconcile vcmp (inputPairs inp.loaders) := by
    rw [hsplit]
    exact List.mem_append.mpr (Or.inr (by simp))
  rw [hsplit]
  obtain ⟨st2, dd, heqRun, hreg2, hev2, hcnt1, hcntAll, hns2, hs2⟩ :=
    phaseCRun_fresh_split vcmp inp.flags inp.installStatus inp.reserveOk
      l1 ae l2
      ⟨s0, inp.registry, initL2p inp.loaders, false, l1 ++ ae :: l2, [] ++ dB⟩
      (fun ae2 _ => ⟨hres ae2.lid ae2.info.identifier,
        hinst ae2.info.identifier ae2.lid⟩)
      (fun ae2 m he => hne1 ae2 m (he.trans haeid))
      (fun ae2 m he => hne2 ae2 m (he.trans haeid))
      (by show regFilter inp.registry ae.info.identifier = []
          rw [haeid]
          exact hfresh)
  rw [heqRun]
  have hcnt_nodup : ∀ id2, (availIds (l1 ++ ae :: l2)).count id2 ≤ 1 := by
    intro id2
    have : (availIds (l1 ++ ae :: l2)).Nodup := by rw [← hsplit]; exact hnd
    exact List.nodup_iff_count_le_one.mp this id2
  have hdB0 : ∀ id2, dB.countP (isInstallOf id2) = 0 := by
    intro id2
    rw [List.countP_eq_zero]
    intro ev hev
    rw [isInstallOf_false_of_isBEvent (hBev ev hev) id2]
    simp
  have hreg_final : regFilter st2.registry id = [(id, ae.info)] := by
    rw [← haeid]
    exact hreg2
  have hev_final : st2.events = ([] ++ dB) ++ dd := hev2
  have hmax_final : ∀ q lid2, (q, lid2) ∈ inputPairs inp.loaders →
      q.identifier = id → ¬ verGt vcmp q.version ae.info.version := by
    intro q lid2 hqmem hqid
    exact hmax ae haemem (q, lid2) hqmem (by simpa using hqid.trans haeid.symm)
  rw [haeid] at hcnt1
  cases restart with
  | none =>
      refine ⟨⟨ae.info, ae.lid, hmemInv ae haemem, haeid, ?_, hmax_final, ?_⟩, ?_⟩
      · exact hreg_final
      · show List.countP (isInstallOf id)
            (st2.events ++ List.map (fun ae2 => Event.releaseInfo ae2.info)
              ([] : List AvailEntry)) = 1
        rw [hev_final]
        simp [List.countP_append, hdB0 id, hcnt1]
      · intro id2
        show List.countP (isInstallOf id2)
            (st2.events ++ List.map (fun ae2 => Event.releaseInfo ae2.info)
              ([] : List AvailEntry)) ≤ 1
        rw [hev_final]
        have h1 := hcntAll id2
        have h2 := hcnt_nodup id2
        simp only [List.map_nil, List.append_nil, List.countP_append,
          List.countP_nil, List.nil_append]
        rw [hdB0 id2]
        omega
  | some ids =>
      rw [phaseD_some]
      have hstart0 : ∀ id2, (ids.map Event.start).countP (isInstallOf id2) = 0 := by
        intro id2
        rw [List.countP_eq_zero]
        intro ev hev
        obtain ⟨id3, _, rfl⟩ := List.mem_map.mp hev
        simp [isInstallOf]
      refine ⟨⟨ae.info, ae.lid, hmemInv ae haemem, haeid, ?_, hmax_final, ?_⟩, ?_⟩
      · exact hreg_final
      · show List.countP (isInstallOf id)
            ((st2.events ++ List.map Event.start ids) ++
              List.map (fun ae2 => Event.releaseInfo ae2.info)
                ([] : List AvailEntry)) = 1
        rw [hev_final]
        simp [List.countP_append, hdB0 id, hcnt1, hstart0 id]
      · intro id2
        show List.countP (isInstallOf id2)
            ((st2.events ++ List.map Event.start ids) ++
              List.map (fun ae2 => Event.releaseInfo ae2.info)
                ([] : List AvailEntry)) ≤ 1
        rw [hev_final]
        have h1 := hcntAll id2
        have h2 := hcnt_nodup id2
        simp only [List.map_nil, List.append_nil, List.countP_append,
          List.countP_nil, List.nil_append]
        rw [hdB0 id2, hstart0 id2]
        omega

/-- Claim C1: for any collection of loaders handing the engine a
multiset of plug-in records, and any identifier present in the input
but not installed when the scan starts, the registry when
`cp_scan_plugins` returns contains exactly one plug-in under that
identifier — one of the input records for it, whose version no input
record for that identifier strictly exceeds under `cpi_vercmp` — and
no identifier is installed twice during the scan.  The hypotheses state
that the version order is transitive and asymmetric and that no
allocation or host failure is injected. -/
theorem claim_C1 (vcmp : String → String → Int) (inp : ScanInput)
    (ht : VcmpTrans vcmp) (ha : VcmpAsymm vcmp)
    (hA1 : inp.getPluginsInfoFail = none)
    (hA2 : inp.startedListOk = true)
    (hHash : inp.availHashOk = true)
    (hB : ∀ L ∈ inp.loaders, ∀ e ∈ L.result.getD [],
      e.apMallocOk = true ∧ e.insertOk = true)
    (hres : ∀ lid id, inp.reserveOk lid id = true)
    (hinst : ∀ id lid, inp.installStatus id lid = CpStatus.ok)
    (id : String) (hin : id ∈ inputIds inp.loaders)
    (hfresh : regFilter inp.registry id = []) :
    (∃ p lid, (p, lid) ∈ inputPairs inp.loaders ∧ p.identifier = id ∧
      regFilter (cp_scan_plugins vcmp inp).registry id = [(id, p)] ∧
      (∀ q lid2, (q, lid2) ∈ inputPairs inp.loaders → q.identifier = id →
        ¬ verGt vcmp q.version p.version) ∧
      (cp_scan_plugins vcmp inp).events.countP (isInstallOf id) = 1) ∧
    (∀ id2, (cp_scan_plugins vcmp inp).events.countP (isInstallOf id2) ≤ 1) := by
  unfold cp_scan_plugins
  by_cases hc : (inp.flags.restartActive ∧
      (inp.flags.upgrade ∨ inp.flags.stopAllOnInstall))
  · rw [if_pos hc, hA1]
    simp only [hA2, not_true, ite_false, if_false]
    exact scanMain_C1 vcmp inp _ _ ht ha hHash hB hres hinst id hin hfresh
  · rw [if_neg hc]
    exact scanMain_C1 vcmp inp _ _ ht ha hHash hB hres hinst id hin hfresh

/-- Witness for claim C1: the two loaders of `winp1` both offer
identifier `p`; after the scan exactly the higher version `2.0.1` is
installed and `p` was installed exactly once. -/
theorem claim_C1_witness :
    (∃ p lid, (p, lid) ∈ inputPairs winp1.loaders ∧ p.identifier = "p" ∧
      regFilter (cp_scan_plugins vcmp0 winp1).registry "p" = [("p", p)] ∧
      (∀ q lid2, (q, lid2) ∈ inputPairs winp1.loaders → q.identifier = "p" →
        ¬ verGt vcmp0 q.version p.version) ∧
      (cp_scan_plugins vcmp0 winp1).events.countP (isInstallOf "p") = 1) ∧
    (∀ id2, (cp_scan_plugins vcmp0 winp1).events.countP (isInstallOf id2) ≤ 1) :=
  claim_C1 vcmp0 winp1 vcmp0_trans vcmp0_asymm rfl rfl rfl (by decide)
    (fun _ _ => rfl) (fun _ _ => rfl) "p" (by decide) rfl

/-! #### Phase B with injected insertion failures (claim C4) -/

theorem scanFoldEntries_distinct (vcmp : String → String → Int) (lid : Nat)
    (entries : List ScanEntry) (st : EngineState)
    (hm : ∀ e ∈ entries, e.apMallocOk = true)
    (hdisj : ∀ e ∈ entries, e.info.identifier ∉ availIds st.avail)
    (hnd : (entries.map (fun e => e.info.identifier)).Nodup) :
    ∃ delta,
      entries.foldl (scanEntryStep vcmp lid) st =
        { st with
            avail := st.avail ++ (entries.filter (fun e => e.insertOk)).map
              (fun e => AvailEntry.mk e.info lid),
            status :=
              if entries.all (fun e => e.insertOk) then st.status
              else CpStatus.errResource,
            events := st.events ++ delta } ∧
      ∀ ev ∈ delta, isBEvent ev = true := by
  induction entries generalizing st with
  | nil => exact ⟨[], by simp, by simp⟩
  | cons e rest ih =>
      have hlook : availLookup st.avail e.info.identifier = none :=
        (availLookup_eq_none_iff _ _).mpr (hdisj e (by simp))
      simp only [List.map_cons, List.nodup_cons] at hnd
      cases hio : e.insertOk with
      | true =>
          have hstep : scanEntryStep vcmp lid st e =
              { st with avail := st.avail ++ [⟨e.info, lid⟩],
                        events := st.events ++ [Event.useInfo e.info] } := by
            simp only [scanEntryStep, hlook, scanEntryInsert, hm e (by simp), hio]
            simp
          obtain ⟨d2, he2, hb2⟩ := ih
            { st with avail := st.avail ++ [⟨e.info, lid⟩],
                      events := st.events ++ [Event.useInfo e.info] }
            (fun e2 m => hm e2 (by simp [m]))
            (by
              intro e2 m
              show e2.info.identifier ∉ availIds (st.avail ++ [⟨e.info, lid⟩])
              have h1 := hdisj e2 (by simp [m])
              have h2 : e2.info.identifier ≠ e.info.identifier := by
                intro hh
                exact hnd.1 (hh ▸ List.mem_map.mpr ⟨e2, m, rfl⟩)
              intro hmem
              unfold availIds at hmem
              rw [List.map_append] at hmem
              rcases List.mem_append.mp hmem with h | h
              · exact h1 (by simpa [availIds] using h)
              · simp at h
                exact h2 h)
            hnd.2
          refine ⟨[Event.useInfo e.info] ++ d2, ?_, ?_⟩
          · rw [List.foldl_cons, hstep, he2]
            simp only [List.filter_cons, hio]
            simp [List.append_assoc, hio]
          · intro ev hm2
            rcases List.mem_append.mp hm2 with h | h
            · simp only [List.mem_singleton] at h
              subst h
              rfl
            · exact hb2 _ h
      | false =>
          have hstep : scanEntryStep vcmp lid st e =
              { st with status := CpStatus.errResource,
                        events := st.events ++ [Event.useInfo e.info] } := by
            simp only [scanEntryStep, hlook, scanEntryInsert, hm e (by simp), hio]
            simp
          obtain ⟨d2, he2, hb2⟩ := ih
            { st with status := CpStatus.errResource,
                      events := st.events ++ [Event.useInfo e.info] }
            (fun e2 m => hm e2 (by simp [m]))
            (fun e2 m => hdisj e2 (by simp [m]))
            hnd.2
          refine ⟨[Event.useInfo e.info] ++ d2, ?_, ?_⟩
          · rw [List.foldl_cons, hstep, he2]
            simp only [List.filter_cons, hio, List.all_cons, Bool.false_and]
            have hcollapse : (if rest.all (fun e2 => e2.insertOk) = true then
                CpStatus.errResource else CpStatus.errResource) =
                CpStatus.errResource := by
              split <;> rfl
            simp [List.append_assoc, hcollapse]
          · intro ev hm2
            rcases List.mem_append.mp hm2 with h | h
            · simp only [List.mem_singleton] at h
              subst h
              rfl
            · exact hb2 _ h

theorem inputIds_cons (L : LoaderInput) (rest : List LoaderInput) :
    inputIds (L :: rest) = loaderIds L ++ inputIds rest := by
  simp [inputIds, inputPairs, loaderIds, List.map_map]

theorem okPairs_ids_sublist (loaders : List LoaderInput) :
    (availIds (okPairs loaders)).Sublist (inputIds loaders) := by
  induction loaders with
  | nil => simp [okPairs, availIds, inputIds, inputPairs]
  | cons L rest ih =>
      rw [inputIds_cons]
      have h1 : availIds (okPairs (L :: rest)) =
          availIds (((L.result.getD []).filter (fun e => e.insertOk)).map
            (fun e => AvailEntry.mk e.info L.lid)) ++ availIds (okPairs rest) := by
        simp [okPairs, availIds]
      rw [h1]
      refine List.Sublist.append ?_ ih
      have h2 : availIds (((L.result.getD []).filter (fun e => e.insertOk)).map
          (fun e => AvailEntry.mk e.info L.lid)) =
          ((L.result.getD []).filter (fun e => e.insertOk)).map
            (fun e => e.info.identifier) := by
        simp [availIds, List.map_map]
      rw [h2]
      unfold loaderIds
      exact List.Sublist.map _ (List.filter_sublist _)

theorem scanFoldLoaders_distinct (vcmp : String → String → Int)
    (loaders : List LoaderInput) (st : EngineState)
    (hm : ∀ L ∈ loaders, ∀ e ∈ L.result.getD [], e.apMallocOk = true)
    (hdisj : ∀ L ∈ loaders, ∀ e ∈ L.result.getD [],
      e.info.identifier ∉ availIds st.avail)
    (hnd : (inputIds loaders).Nodup)
    (hdisj2 : ∀ id2 ∈ inputIds loaders, id2 ∉ availIds st.avail) :
    ∃ delta,
      loaders.foldl (scanLoaderStep vcmp) st =
        { st with
            avail := st.avail ++ okPairs loaders,
            status :=
              if loaders.all (fun L => (L.result.getD []).all
                (fun e => e.insertOk)) then st.status
              else CpStatus.errResource,
            events := st.events ++ delta } ∧
      ∀ ev ∈ delta, isBEvent ev = true := by
  induction loaders generalizing st with
  | nil => exact ⟨[], by simp [okPairs], by simp⟩
  | cons L rest ih =>
      rw [inputIds_cons] at hnd hdisj2
      have hndL : ((L.result.getD []).map
          (fun e => e.info.identifier)).Nodup :=
        ((List.nodup_append.mp hnd).1 : (loaderIds L).Nodup)
      obtain ⟨dE, heE, hbE⟩ := scanFoldEntries_distinct vcmp L.lid
        (L.result.getD []) st (hm L (by simp)) (hdisj L (by simp)) hndL
      have hstepL : ∃ dL, scanLoaderStep vcmp st L =
          { st with
              avail := st.avail ++ (((L.result.getD []).filter
                (fun e => e.insertOk)).map (fun e => AvailEntry.mk e.info L.lid)),
              status :=
                if (L.result.getD []).all (fun e => e.insertOk) then st.status
                else CpStatus.errResource,
              events := st.events ++ dL } ∧
          ∀ ev ∈ dL, isBEvent ev = true := by
        unfold scanLoaderStep
        cases hr : L.result with
        | none =>
            refine ⟨[], by simp, by simp⟩
        | some entries =>
            rw [hr] at heE
            simp only [Option.getD_some] at heE ⊢
            split
            · exact ⟨dE, heE, hbE⟩
            · refine ⟨dE ++ entries.map (fun e => Event.releaseArray e.info), ?_, ?_⟩
              · rw [heE]
                simp [List.append_assoc]
              · intro ev hm2
                rcases List.mem_append.mp hm2 with h | h
                · exact hbE _ h
                · obtain ⟨e2, _, rfl⟩ := List.mem_map.mp h
                  rfl
      obtain ⟨dL, heL, hbL⟩ := hstepL
      obtain ⟨dR, heR, hbR⟩ := ih
        { st with
            avail := st.avail ++ (((L.result.getD []).filter
              (fun e => e.insertOk)).map (fun e => AvailEntry.mk e.info L.lid)),
            status :=
              if (L.result.getD []).all (fun e => e.insertOk) then st.status
              else CpStatus.errResource,
            events := st.events ++ dL }
        (fun L2 m => hm L2 (by simp [m]))
        (by
          intro L2 m e2 m2
          show e2.info.identifier ∉ availIds (st.avail ++ _)
          have h1 : e2.info.identifier ∈ inputIds rest := by
            simp only [inputIds, inputPairs]
            refine List.mem_map.mpr ⟨(e2.info, L2.lid), ?_, rfl⟩
            exact List.mem_flatMap.mpr ⟨L2, m, List.mem_map.mpr ⟨e2, m2, rfl⟩⟩
          have h2 := hdisj2 e2.info.identifier (List.mem_append.mpr (Or.inr h1))
          have h3 : e2.info.identifier ∉ loaderIds L := by
            intro hh
            have := (List.nodup_append.mp hnd).2.2
            exact this hh h1
          simp only [availIds, List.map_append, List.mem_append, not_or]
          constructor
          · simpa [availIds] using h2
          · intro hh
            apply h3
            have h4 : e2.info.identifier ∈ ((L.result.getD []).filter
                (fun e => e.insertOk)).map (fun e => e.info.identifier) := by
              simpa [availIds, List.map_map] using hh
            unfold loaderIds
            exact (List.Sublist.map (fun e : ScanEntry => e.info.identifier)
              (List.filter_sublist (L.result.getD []))).subset h4)
        (List.nodup_append.mp hnd).2.1
        (by
          intro id2 m
          show id2 ∉ availIds (st.avail ++ _)
          have h2 := hdisj2 id2 (List.mem_append.mpr (Or.inr m))
          have h3 : id2 ∉ loaderIds L := by
            intro hh
            exact (List.nodup_append.mp hnd).2.2 hh m
          simp only [availIds, List.map_append, List.mem_append, not_or]
          constructor
          · simpa [availIds] using h2
          · intro hh
            apply h3
            have h4 : id2 ∈ ((L.result.getD []).filter
                (fun e => e.insertOk)).map (fun e => e.info.identifier) := by
              simpa [availIds, List.map_map] using hh
            unfold loaderIds
            exact (List.Sublist.map (fun e : ScanEntry => e.info.identifier)
              (List.filter_sublist (L.result.getD []))).subset h4)
      refine ⟨dL ++ dR, ?_, ?_⟩
      · rw [List.foldl_cons, heL, heR]
        have havail : (st.avail ++ (((L.result.getD []).filter
            (fun e => e.insertOk)).map (fun e => AvailEntry.mk e.info L.lid))) ++
            okPairs rest = st.avail ++ okPairs (L :: rest) := by
          simp [okPairs, List.append_assoc]
        have hstatus :
            (if rest.all (fun L2 => (L2.result.getD []).all (fun e => e.insertOk))
              then (if (L.result.getD []).all (fun e => e.insertOk) then st.status
                else CpStatus.errResource)
              else CpStatus.errResource) =
            (if (L :: rest).all (fun L2 => (L2.result.getD []).all
              (fun e => e.insertOk)) then st.status else CpStatus.errResource) := by
          by_cases h1 : (L.result.getD []).all (fun e => e.insertOk)
          · by_cases h2 : rest.all (fun L2 => (L2.result.getD []).all
                (fun e => e.insertOk))
            · simp [h1, h2]
            · simp [h1, h2]
          · by_cases h2 : rest.all (fun L2 => (L2.result.getD []).all
                (fun e => e.insertOk))
            · simp [h1, h2]
            · simp [h1, h2]
        rw [← havail, ← hstatus]
        simp [List.append_assoc]
      · intro ev hm2
        rcases List.mem_append.mp hm2 with h | h
        exacts [hbL _ h, hbR _ h]

theorem phaseCRun_all_fresh (vcmp : String → String → Int) (flags : Flags)
    (installStatus : String → Nat → CpStatus) (reserveOk : Nat → String → Bool)
    (l : List AvailEntry) (st : EngineState)
    (hok : ∀ ae ∈ l, reserveOk ae.lid ae.info.identifier = true ∧
      installStatus ae.info.identifier ae.lid = CpStatus.ok)
    (hnd : (availIds l).Nodup)
    (hfresh : ∀ ae ∈ l, regFilter st.registry ae.info.identifier = []) :
    ∃ st2,
      phaseCRun vcmp flags installStatus reserveOk st l = (st2, []) ∧
      st2.status = st.status ∧
      (∀ ae ∈ l, regFilter st2.registry ae.info.identifier =
        [(ae.info.identifier, ae.info)]) ∧
      (∀ id2, id2 ∉ availIds l →
        regFilter st2.registry id2 = regFilter st.registry id2) ∧
      st2.l2p = l.foldl (fun m ae =>
        l2pSet m ae.lid (ae.info.identifier :: l2pLookup m ae.lid)) st.l2p := by
  induction l generalizing st with
  | nil => exact ⟨st, rfl, rfl, by simp, by simp, by simp⟩
  | cons ae rest ih =>
      simp only [availIds, List.map_cons, List.nodup_cons] at hnd
      have hlook : regLookup st.registry ae.info.identifier = none :=
        regLookup_eq_none_of_filter (hfresh ae (by simp))
      have hstep := phaseCEntry_fresh vcmp flags installStatus reserveOk st ae
        hlook (hok ae (by simp)).1 (hok ae (by simp)).2
      have hregB : (installOkState (reserveAdd
          (maybeStopAll flags.stopAllOnInstall st) ae) ae).registry =
          st.registry ++ [(ae.info.identifier, ae.info)] := by
        show regAdd (maybeStopAll flags.stopAllOnInstall st).registry _ _ = _
        rw [(maybeStopAll_fields flags.stopAllOnInstall st).1]
        rfl
      have hl2pB : (installOkState (reserveAdd
          (maybeStopAll flags.stopAllOnInstall st) ae) ae).l2p =
          l2pSet st.l2p ae.lid (ae.info.identifier :: l2pLookup st.l2p ae.lid) := by
        show l2pSet (maybeStopAll flags.stopAllOnInstall st).l2p ae.lid
            (ae.info.identifier ::
              l2pLookup (maybeStopAll flags.stopAllOnInstall st).l2p ae.lid) = _
        rw [(maybeStopAll_fields flags.stopAllOnInstall st).2.1]
      have hsB : (installOkState (reserveAdd
          (maybeStopAll flags.stopAllOnInstall st) ae) ae).status = st.status :=
        (maybeStopAll_fields flags.stopAllOnInstall st).2.2.1
      have hfilter_one : ∀ id2, (List.filter (fun x => x.1 == id2)
          [(ae.info.identifier, ae.info)]) =
          if ae.info.identifier = id2 then [(ae.info.identifier, ae.info)]
          else [] := by
        intro id2
        by_cases he : ae.info.identifier = id2
        · simp [he]
        · simp [he]
      obtain ⟨st2, heq2, hs2, hself2, hpres2, hl2p2⟩ := ih
        (installOkState (reserveAdd (maybeStopAll flags.stopAllOnInstall st) ae) ae)
        (fun ae2 m => hok ae2 (by simp [m]))
        hnd.2
        (by
          intro ae2 m
          have hne : ae2.info.identifier ≠ ae.info.identifier := by
            intro hh
            exact hnd.1 (hh ▸ List.mem_map.mpr ⟨ae2, m, rfl⟩)
          rw [show regFilter (installOkState (reserveAdd
              (maybeStopAll flags.stopAllOnInstall st) ae) ae).registry
                ae2.info.identifier =
              regFilter (st.registry ++ [(ae.info.identifier, ae.info)])
                ae2.info.identifier by rw [hregB]]
          unfold regFilter
          rw [List.filter_append]
          rw [show (List.filter (fun x => x.1 == ae2.info.identifier)
              [(ae.info.identifier, ae.info)]) = [] by simp [hne.symm]]
          rw [List.append_nil]
          exact hfresh ae2 (by simp [m]))
      refine ⟨st2, ?_, hs2.trans hsB, ?_, ?_, ?_⟩
      · simp only [phaseCRun, hstep]
        exact heq2
      · intro ae2 hm2
        rcases List.mem_cons.mp hm2 with h | h
        · subst h
          rw [hpres2 ae2.info.identifier (by
            intro hh
            exact hnd.1 (by simpa [availIds] using hh))]
          rw [show regFilter (installOkState (reserveAdd
              (maybeStopAll flags.stopAllOnInstall st) ae2) ae2).registry
                ae2.info.identifier =
              regFilter (st.registry ++ [(ae2.info.identifier, ae2.info)])
                ae2.info.identifier by rw [hregB]]
          unfold regFilter
          rw [List.filter_append]
          rw [show (List.filter (fun x => x.1 == ae2.info.identifier)
              [(ae2.info.identifier, ae2.info)]) =
              [(ae2.info.identifier, ae2.info)] by simp]
          have h0 := hfresh ae2 (by simp)
          unfold regFilter at h0
          rw [h0, List.nil_append]
        · exact hself2 ae2 h
      · intro id2 hnotin
        have hne : ae.info.identifier ≠ id2 := by
          intro hh
          exact hnotin (by simp [availIds, hh])
        rw [hpres2 id2 (by
          intro hh
          exact hnotin (by simp [availIds] at hh ⊢; exact Or.inr hh))]
        rw [show regFilter (installOkState (reserveAdd
            (maybeStopAll flags.stopAllOnInstall st) ae) ae).registry id2 =
            regFilter (st.registry ++ [(ae.info.identifier, ae.info)]) id2 by
          rw [hregB]]
        unfold regFilter
        rw [List.filter_append]
        rw [show (List.filter (fun x => x.1 == id2)
            [(ae.info.identifier, ae.info)]) = [] by simp [hne]]
        rw [List.append_nil]
      · rw [hl2p2, List.foldl_cons, hl2pB]

theorem lastNonOk_allok (f : String → CpStatus) (ids : List String)
    (s0 : CpStatus) (h : ∀ id, f id = CpStatus.ok) :
    lastNonOk f ids s0 = s0 := by
  induction ids generalizing s0 with
  | nil => rfl
  | cons id rest ih =>
      simp only [lastNonOk, List.foldl_cons] at ih ⊢
      rw [h id]
      simpa using ih s0

theorem count_map_filter_partition (l : List ScanEntry)
    (f : ScanEntry → String) (v : String) :
    ((l.filter (fun e => e.insertOk)).map f).count v +
      ((l.filter (fun e => ¬ e.insertOk)).map f).count v =
      (l.map f).count v := by
  induction l with
  | nil => rfl
  | cons e t ih =>
      by_cases hp : e.insertOk = true <;>
        by_cases hv : f e = v <;>
          simp [List.filter_cons, List.count_cons, hp, hv, ← ih] <;> omega

theorem count_okPairs_succ (loaders : List LoaderInput) (L : LoaderInput)
    (hL : L ∈ loaders) (e : ScanEntry) (he : e ∈ L.result.getD [])
    (hbad : e.insertOk = false) :
    (availIds (okPairs loaders)).count e.info.identifier + 1 ≤
      (inputIds loaders).count e.info.identifier := by
  induction loaders with
  | nil => cases hL
  | cons L2 rest ih =>
      have hok_split : availIds (okPairs (L2 :: rest)) =
          (((L2.result.getD []).filter (fun e2 => e2.insertOk)).map
            (fun e2 => e2.info.identifier)) ++ availIds (okPairs rest) := by
        simp [okPairs, availIds, List.map_map]
      rw [hok_split, inputIds_cons, List.count_append, List.count_append]
      rcases List.mem_cons.mp hL with h | h
      · subst h
        have hpart := count_map_filter_partition (L.result.getD [])
          (fun e2 => e2.info.identifier) e.info.identifier
        have hbadmem : e ∈ (L.result.getD []).filter (fun e2 => ¬ e2.insertOk) :=
          List.mem_filter.mpr ⟨he, by simp [hbad]⟩
        have hbadcount : 0 < (((L.result.getD []).filter
            (fun e2 => ¬ e2.insertOk)).map (fun e2 => e2.info.identifier)).count
              e.info.identifier :=
          List.count_pos_iff.mpr (List.mem_map.mpr ⟨e, hbadmem, rfl⟩)
        have hrest : (availIds (okPairs rest)).count e.info.identifier ≤
            (inputIds rest).count e.info.identifier :=
          (okPairs_ids_sublist rest).count_le _
        unfold loaderIds
        omega
      · have hih := ih h
        have hLok : (((L2.result.getD []).filter (fun e2 => e2.insertOk)).map
            (fun e2 => e2.info.identifier)).count e.info.identifier ≤
            (loaderIds L2).count e.info.identifier := by
          unfold loaderIds
          exact (List.Sublist.map (fun e2 : ScanEntry => e2.info.identifier)
            (List.filter_sublist (L2.result.getD []))).count_le _
        omega

theorem scanMain_C4 (vcmp : String → String → Int) (inp : ScanInput)
    (s0 : CpStatus) (restart : Option (List String))
    (hHash : inp.availHashOk = true)
    (hm : ∀ L ∈ inp.loaders, ∀ e ∈ L.result.getD [], e.apMallocOk = true)
    (hnd : (inputIds inp.loaders).Nodup)
    (hfreshAll : ∀ id ∈ inputIds inp.loaders, regFilter inp.registry id = [])
    (hres : ∀ lid id, inp.reserveOk lid id = true)
    (hinst : ∀ id lid, inp.installStatus id lid = CpStatus.ok)
    (hstart : ∀ id, inp.startStatus id = CpStatus.ok) :
    (scanMain vcmp inp s0 restart).status =
      (if inp.loaders.all (fun L => (L.result.getD []).all
        (fun e => e.insertOk)) then s0 else CpStatus.errResource) ∧
    (∀ L ∈ inp.loaders, ∀ e ∈ L.result.getD [],
      regFilter (scanMain vcmp inp s0 restart).registry e.info.identifier =
        (if e.insertOk then [(e.info.identifier, e.info)] else [])) := by
  unfold scanMain
  rw [if_neg (by simp [hHash])]
  simp only []
  obtain ⟨dB, hBeq, hBev⟩ := scanFoldLoaders_distinct vcmp inp.loaders
    ⟨s0, inp.registry, initL2p inp.loaders, false, [], []⟩
    hm (by intro L _ e _; simp [availIds]) hnd
    (by intro id2 _; simp [availIds])
  rw [hBeq]
  dsimp only
  have hfreshOk : ∀ ae ∈ okPairs inp.loaders,
      regFilter inp.registry ae.info.identifier = [] := by
    intro ae hae
    apply hfreshAll
    exact (okPairs_ids_sublist inp.loaders).subset
      (List.mem_map.mpr ⟨ae, hae, rfl⟩)
  obtain ⟨st2, heq2, hs2, hself2, hpres2, _⟩ :=
    phaseCRun_all_fresh vcmp inp.flags inp.installStatus inp.reserveOk
      (okPairs inp.loaders)
      ⟨(if inp.loaders.all (fun L => (L.result.getD []).all
          (fun e => e.insertOk)) then s0 else CpStatus.errResource),
        inp.registry, initL2p inp.loaders, false,
        [] ++ okPairs inp.loaders, [] ++ dB⟩
      (fun ae _ => ⟨hres ae.lid ae.info.identifier,
        hinst ae.info.identifier ae.lid⟩)
      (List.Nodup.sublist (okPairs_ids_sublist inp.loaders) hnd)
      (fun ae hae => hfreshOk ae hae)
  rw [show ([] ++ okPairs inp.loaders) = okPairs inp.loaders from rfl] at heq2 ⊢
  rw [heq2]
  have hstatus_final : ∀ stx : EngineState,
      (phaseD inp.startStatus stx restart).status = stx.status := by
    intro stx
    cases restart with
    | none => rfl
    | some ids =>
        rw [phaseD_some]
        exact lastNonOk_allok inp.startStatus ids stx.status hstart
  have hreg_final : ∀ stx : EngineState,
      (phaseD inp.startStatus stx restart).registry = stx.registry := by
    intro stx
    cases restart with
    | none => rfl
    | some ids => rw [phaseD_some]
  constructor
  · show (phaseD inp.startStatus st2 restart).status = _
    rw [hstatus_final st2, hs2]
  · intro L hL e hemem
    show regFilter (phaseD inp.startStatus st2 restart).registry
      e.info.identifier = _
    rw [hreg_final st2]
    cases hio : e.insertOk with
    | true =>
        have hmemok : AvailEntry.mk e.info L.lid ∈ okPairs inp.loaders := by
          unfold okPairs
          refine List.mem_flatMap.mpr ⟨L, hL, ?_⟩
          exact List.mem_map.mpr ⟨e, List.mem_filter.mpr ⟨hemem, by simp [hio]⟩, rfl⟩
        simpa using hself2 (AvailEntry.mk e.info L.lid) hmemok
    | false =>
        have hnotin : e.info.identifier ∉ availIds (okPairs inp.loaders) := by
          intro hmem2
          have h1 := count_okPairs_succ inp.loaders L hL e hemem hio
          have h2 : 0 < (availIds (okPairs inp.loaders)).count
              e.info.identifier := List.count_pos_iff.mpr hmem2
          have h3 : (inputIds inp.loaders).count e.info.identifier ≤ 1 :=
            List.nodup_iff_count_le_one.mp hnd _
          omega
        rw [hpres2 e.info.identifier hnotin]
        simp only []
        have hin : e.info.identifier ∈ inputIds inp.loaders := by
          simp only [inputIds, inputPairs]
          refine List.mem_map.mpr ⟨(e.info, L.lid), ?_, rfl⟩
          exact List.mem_flatMap.mpr ⟨L, hL, List.mem_map.mpr ⟨e, hemem, rfl⟩⟩
        exact hfreshAll e.info.identifier hin

/-- Claim C4 (amended): when the only injected failures are per-entry
`hash_alloc_insert` failures in Phase B, `cp_scan_plugins` does keep
processing all subsequent entries and loaders — every entry whose
insertion succeeded ends up installed, every entry whose insertion
failed is simply absent — but the scan does NOT return `CP_OK`: the
per-entry failure path (pscan.c lines 167-173) sets `status =
CP_ERR_RESOURCE`, so the error IS reflected in the scan's return
status. -/
theorem claim_C4 (vcmp : String → String → Int) (inp : ScanInput)
    (hA1 : inp.getPluginsInfoFail = none)
    (hA2 : inp.startedListOk = true)
    (hHash : inp.availHashOk = true)
    (hm : ∀ L ∈ inp.loaders, ∀ e ∈ L.result.getD [], e.apMallocOk = true)
    (hnd : (inputIds inp.loaders).Nodup)
    (hfreshAll : ∀ id ∈ inputIds inp.loaders, regFilter inp.registry id = [])
    (hres : ∀ lid id, inp.reserveOk lid id = true)
    (hinst : ∀ id lid, inp.installStatus id lid = CpStatus.ok)
    (hstart : ∀ id, inp.startStatus id = CpStatus.ok)
    (hbad : ¬ inp.loaders.all (fun L => (L.result.getD []).all
      (fun e => e.insertOk))) :
    (cp_scan_plugins vcmp inp).status = CpStatus.errResource ∧
    (∀ L ∈ inp.loaders, ∀ e ∈ L.result.getD [],
      regFilter (cp_scan_plugins vcmp inp).registry e.info.identifier =
        (if e.insertOk then [(e.info.identifier, e.info)] else [])) := by
  have key : ∀ (s0 : CpStatus) (restart : Option (List String)),
      (scanMain vcmp inp s0 restart).status = CpStatus.errResource ∧
      (∀ L ∈ inp.loaders, ∀ e ∈ L.result.getD [],
        regFilter (scanMain vcmp inp s0 restart).registry e.info.identifier =
          (if e.insertOk then [(e.info.identifier, e.info)] else [])) := by
    intro s0 restart
    obtain ⟨h1, h2⟩ := scanMain_C4 vcmp inp s0 restart hHash hm hnd
      hfreshAll hres hinst hstart
    exact ⟨by rw [h1, if_neg hbad], h2⟩
  unfold cp_scan_plugins
  by_cases hc : (inp.flags.restartActive ∧
      (inp.flags.upgrade ∨ inp.flags.stopAllOnInstall))
  · rw [if_pos hc, hA1]
    simp only [hA2, not_true, ite_false, if_false]
    exact key _ _
  · rw [if_neg hc]
    exact key _ _

/-- Counterexample to claim C4 as stated: on the input `winp4` the
insertion of plug-in `x` into `avail_plugins` fails while the following
entry `q` is still processed and installed (the scan indeed continues),
yet the returned status is `CP_ERR_RESOURCE`, not `CP_OK` as the claim
asserts. -/
theorem claim_C4_counterexample :
    (cp_scan_plugins vcmp0 winp4).status = CpStatus.errResource ∧
    CpStatus.errResource ≠ CpStatus.ok ∧
    regFilter (cp_scan_plugins vcmp0 winp4).registry "q" = [("q", wq1)] ∧
    regFilter (cp_scan_plugins vcmp0 winp4).registry "x" = [] := by decide

/-- Witness for the amended claim C4 at the concrete input `winp4`. -/
theorem claim_C4_witness :
    (cp_scan_plugins vcmp0 winp4).status = CpStatus.errResource ∧
    (∀ L ∈ winp4.loaders, ∀ e ∈ L.result.getD [],
      regFilter (cp_scan_plugins vcmp0 winp4).registry e.info.identifier =
        (if e.insertOk then [(e.info.identifier, e.info)] else [])) :=
  claim_C4 vcmp0 winp4 rfl rfl rfl (by decide) (by decide)
    (fun _ _ => rfl) (fun _ _ => rfl) (fun _ _ => rfl) (fun _ => rfl)
    (by decide)

/-- Claim C10: the local loader's scan returns NULL exactly when
creating its working hash or allocating the final result array fails;
in particular unregistered-directory-free states, unopenable
directories and mid-enumeration errors still yield a non-NULL
(null-terminated) array. -/
theorem claim_C10 (vcmp : String → String → Int)
    (hashCreateOk arrayAllocOk : Bool)
    (dirs : List (String × LDirContent)) :
    (lpl_scan_plugins vcmp hashCreateOk arrayAllocOk dirs).result = none ↔
      hashCreateOk = false ∨ arrayAllocOk = false := by
  unfold lpl_scan_plugins
  cases hashCreateOk <;> cases arrayAllocOk <;> simp

/-! #### Phase C break on a host install failure (claim C5) -/

theorem l2pSet_keys (m : List (Nat × List String)) (k : Nat)
    (v : List String) :
    (l2pSet m k v).map Prod.fst = m.map Prod.fst := by
  induction m with
  | nil => rfl
  | cons x t ih =>
      simp only [l2pSet, List.map_cons] at ih ⊢
      by_cases h : (x.1 == k) = true
      · rw [if_pos h]
        show x.1 :: List.map Prod.fst (List.map _ t) = x.1 :: List.map Prod.fst t
        rw [ih]
      · rw [if_neg h]
        show x.1 :: List.map Prod.fst (List.map _ t) = x.1 :: List.map Prod.fst t
        rw [ih]

theorem l2pSet_of_not_mem (m : List (Nat × List String)) (k : Nat)
    (v : List String) (hk : k ∉ m.map Prod.fst) : l2pSet m k v = m := by
  induction m with
  | nil => rfl
  | cons x t ih =>
      simp only [List.map_cons, List.mem_cons] at hk
      push_neg at hk
      have h1 : (x.1 == k) = false := by
        simp only [beq_eq_false_iff_ne, ne_eq]
        exact fun h => hk.1 h.symm
      simp only [l2pSet, List.map_cons, h1, Bool.false_eq_true, if_false]
      rw [show List.map (fun x => if x.1 == k then (x.1, v) else x) t =
        l2pSet t k v from rfl, ih hk.2]

theorem l2pLookup_of_not_mem (m : List (Nat × List String)) (k : Nat)
    (hk : k ∉ m.map Prod.fst) : l2pLookup m k = [] := by
  unfold l2pLookup
  have hnone : m.find? (fun x => x.1 == k) = none := by
    rw [List.find?_eq_none]
    intro x hx h
    exact hk (List.mem_map.mpr ⟨x, hx, by simpa using h⟩)
  rw [hnone]

theorem l2pLookup_set_self (m : List (Nat × List String)) (k : Nat)
    (v : List String) (hk : k ∈ m.map Prod.fst) :
    l2pLookup (l2pSet m k v) k = v := by
  induction m with
  | nil => simp at hk
  | cons x t ih =>
      by_cases h : (x.1 == k) = true
      · simp only [l2pSet, List.map_cons, h, if_true]
        unfold l2pLookup
        rw [List.find?_cons_of_pos _ (by simpa using h)]
      · have hk' : k ∈ t.map Prod.fst := by
          rcases List.mem_cons.mp hk with h1 | h1
          · exact absurd (by simp [h1]) h
          · exact h1
        simp only [l2pSet, List.map_cons, h, Bool.false_eq_true, if_false]
        unfold l2pLookup
        rw [List.find?_cons_of_neg _ (by simpa using h)]
        exact ih hk'

theorem l2pLookup_set_subset (m : List (Nat × List String)) (k : Nat)
    (v : List String) (k2 : Nat) (id : String)
    (h : id ∈ l2pLookup (l2pSet m k v) k2) :
    id ∈ v ∨ id ∈ l2pLookup m k2 := by
  induction m with
  | nil => simp [l2pSet, l2pLookup] at h
  | cons x t ih =>
      by_cases hx : (x.1 == k) = true <;> by_cases hx2 : (x.1 == k2) = true
      · simp only [l2pSet, List.map_cons, hx, if_true] at h
        unfold l2pLookup at h
        rw [List.find?_cons_of_pos _ (by simpa using hx2)] at h
        exact Or.inl h
      · simp only [l2pSet, List.map_cons, hx, if_true] at h
        unfold l2pLookup at h ⊢
        rw [List.find?_cons_of_neg _ (by simpa using hx2)] at h
        rw [List.find?_cons_of_neg _ (by simpa using hx2)]
        exact ih h
      · simp only [l2pSet, List.map_cons, hx, Bool.false_eq_true, if_false] at h
        unfold l2pLookup at h ⊢
        rw [List.find?_cons_of_pos _ (by simpa using hx2)] at h
        rw [List.find?_cons_of_pos _ (by simpa using hx2)]
        exact Or.inr h
      · simp only [l2pSet, List.map_cons, hx, Bool.false_eq_true, if_false] at h
        unfold l2pLookup at h ⊢
        rw [List.find?_cons_of_neg _ (by simpa using hx2)] at h
        rw [List.find?_cons_of_neg _ (by simpa using hx2)]
        exact ih h

theorem reserveNet_lookup (st : EngineState) (ae : AvailEntry) :
    l2pLookup (reserveRollback (reserveAdd st ae) ae).l2p ae.lid =
      l2pLookup st.l2p ae.lid := by
  by_cases hk : ae.lid ∈ st.l2p.map Prod.fst
  · have h2 : l2pLookup (reserveAdd st ae).l2p ae.lid =
        ae.info.identifier :: l2pLookup st.l2p ae.lid :=
      l2pLookup_set_self st.l2p ae.lid _ hk
    have hk2 : ae.lid ∈ (reserveAdd st ae).l2p.map Prod.fst := by
      show ae.lid ∈ (l2pSet st.l2p ae.lid _).map Prod.fst
      rw [l2pSet_keys]
      exact hk
    show l2pLookup (l2pSet (reserveAdd st ae).l2p ae.lid
        ((l2pLookup (reserveAdd st ae).l2p ae.lid).erase ae.info.identifier))
        ae.lid = _
    rw [l2pLookup_set_self _ _ _ hk2, h2, List.erase_cons_head]
  · have h1 : (reserveAdd st ae).l2p = st.l2p :=
      l2pSet_of_not_mem st.l2p ae.lid _ hk
    show l2pLookup (l2pSet (reserveAdd st ae).l2p ae.lid
        ((l2pLookup (reserveAdd st ae).l2p ae.lid).erase ae.info.identifier))
        ae.lid = _
    rw [h1, l2pSet_of_not_mem st.l2p ae.lid _ hk]

theorem l2pFold_mem (pre : List AvailEntry) (m : List (Nat × List String))
    (id : String)
    (h : ∃ lid, id ∈ l2pLookup (pre.foldl (fun m2 ae =>
      l2pSet m2 ae.lid (ae.info.identifier :: l2pLookup m2 ae.lid)) m) lid) :
    (∃ lid, id ∈ l2pLookup m lid) ∨ id ∈ availIds pre := by
  induction pre generalizing m with
  | nil => exact Or.inl h
  | cons ae t ih =>
      rw [List.foldl_cons] at h
      rcases ih _ h with ⟨lid, hm⟩ | hin
      · rcases l2pLookup_set_subset _ _ _ _ _ hm with hv | hm2
        · rcases List.mem_cons.mp hv with rfl | hm3
          · exact Or.inr (by simp [availIds])
          · exact Or.inl ⟨ae.lid, hm3⟩
        · exact Or.inl ⟨lid, hm2⟩
      · refine Or.inr ?_
        have he : availIds (ae :: t) = ae.info.identifier :: availIds t := by
          simp [availIds]
        rw [he]
        exact List.mem_cons_of_mem _ hin

theorem initL2p_lookup (loaders : List LoaderInput) (lid : Nat) :
    l2pLookup (initL2p loaders) lid = [] ∨
      ∃ L ∈ loaders, l2pLookup (initL2p loaders) lid = L.installed := by
  rcases hf : (initL2p loaders).find? (fun x => x.1 == lid) with _ | x
  · left
    unfold l2pLookup
    rw [hf]
  · right
    have hmem : x ∈ initL2p loaders := List.mem_of_find?_eq_some hf
    unfold initL2p at hmem
    obtain ⟨L, hL, hx⟩ := List.mem_map.mp hmem
    refine ⟨L, hL, ?_⟩
    unfold l2pLookup
    rw [hf, ← hx]

theorem countP_isStart_map_start (ids : List String) :
    (ids.map Event.start).countP isStart = ids.length := by
  induction ids with
  | nil => rfl
  | cons id t ih => simp [List.countP_cons, isStart, ih]

theorem phaseCEntry_break (vcmp : String → String → Int) (flags : Flags)
    (installStatus : String → Nat → CpStatus) (reserveOk : Nat → String → Bool)
    (st : EngineState) (ax : AvailEntry)
    (hlook : regLookup st.registry ax.info.identifier = none)
    (hr : reserveOk ax.lid ax.info.identifier = true)
    (hf : installStatus ax.info.identifier ax.lid ≠ CpStatus.ok) :
    phaseCEntry vcmp flags installStatus reserveOk st ax =
      CStep.brk { reserveRollback (reserveAdd
          (maybeStopAll flags.stopAllOnInstall st) ax) ax with
        status := installStatus ax.info.identifier ax.lid } := by
  simp only [phaseCEntry, hlook]
  unfold phaseCInstall
  rw [if_pos hr, if_neg hf]

theorem phaseCRun_break (vcmp : String → String → Int) (flags : Flags)
    (installStatus : String → Nat → CpStatus) (reserveOk : Nat → String → Bool)
    (pre : List AvailEntry) (ax : AvailEntry) (post : List AvailEntry)
    (st : EngineState)
    (hok : ∀ ae ∈ pre, reserveOk ae.lid ae.info.identifier = true ∧
      installStatus ae.info.identifier ae.lid = CpStatus.ok)
    (hrx : reserveOk ax.lid ax.info.identifier = true)
    (hfx : installStatus ax.info.identifier ax.lid ≠ CpStatus.ok)
    (hnd : (availIds (pre ++ [ax])).Nodup)
    (hfresh : ∀ ae ∈ pre ++ [ax], regFilter st.registry ae.info.identifier = []) :
    ∃ st2 delta,
      phaseCRun vcmp flags installStatus reserveOk st (pre ++ ax :: post) =
        (st2, ax :: post) ∧
      st2.status = installStatus ax.info.identifier ax.lid ∧
      (∀ ae ∈ pre, regFilter st2.registry ae.info.identifier =
        [(ae.info.identifier, ae.info)]) ∧
      (∀ id2, id2 ∉ availIds pre →
        regFilter st2.registry id2 = regFilter st.registry id2) ∧
      st2.events = st.events ++ delta ∧
      (∀ e ∈ delta, isStart e = false) ∧
      (∀ id2, id2 ∉ availIds pre → delta.countP (isInstallOf id2) = 0) ∧
      l2pLookup st2.l2p ax.lid =
        l2pLookup (pre.foldl (fun m2 ae =>
          l2pSet m2 ae.lid (ae.info.identifier :: l2pLookup m2 ae.lid)) st.l2p)
          ax.lid := by
  induction pre generalizing st with
  | nil =>
      have hlook : regLookup st.registry ax.info.identifier = none :=
        regLookup_eq_none_of_filter (hfresh ax (by simp))
      have hstep := phaseCEntry_break vcmp flags installStatus reserveOk st ax
        hlook hrx hfx
      obtain ⟨l1, hl1, hstop⟩ := maybeStopAll_stopOnly flags.stopAllOnInstall st
      refine ⟨{ reserveRollback (reserveAdd
          (maybeStopAll flags.stopAllOnInstall st) ax) ax with
            status := installStatus ax.info.identifier ax.lid },
        l1, ?_, rfl, by simp, ?_, ?_, ?_, ?_, ?_⟩
      · rw [List.nil_append]
        simp only [phaseCRun, hstep]
      · intro id2 _
        have hregeq : ({ reserveRollback (reserveAdd
            (maybeStopAll flags.stopAllOnInstall st) ax) ax with
              status := installStatus ax.info.identifier ax.lid } :
            EngineState).registry = st.registry :=
          (maybeStopAll_fields flags.stopAllOnInstall st).1
        rw [hregeq]
      · show (maybeStopAll flags.stopAllOnInstall st).events = st.events ++ l1
        exact hl1
      · intro e he
        rw [hstop e he]
        rfl
      · intro id2 _
        rw [List.countP_eq_zero]
        intro e he
        rw [hstop e he]
        simp [isInstallOf]
      · show l2pLookup (reserveRollback (reserveAdd
            (maybeStopAll flags.stopAllOnInstall st) ax) ax).l2p ax.lid = _
        rw [reserveNet_lookup (maybeStopAll flags.stopAllOnInstall st) ax,
          (maybeStopAll_fields flags.stopAllOnInstall st).2.1]
        rfl
  | cons ae t ih =>
      have hndc : ae.info.identifier ∉ availIds (t ++ [ax]) ∧
          (availIds (t ++ [ax])).Nodup := by
        have : availIds ((ae :: t) ++ [ax]) =
            ae.info.identifier :: availIds (t ++ [ax]) := by
          simp [availIds]
        rw [this] at hnd
        exact List.nodup_cons.mp hnd
      have hlookae : regLookup st.registry ae.info.identifier = none :=
        regLookup_eq_none_of_filter (hfresh ae (by simp))
      have hstep := phaseCEntry_fresh vcmp flags installStatus reserveOk st ae
        hlookae (hok ae (by simp)).1 (hok ae (by simp)).2
      obtain ⟨l1, hl1, hstop⟩ := maybeStopAll_stopOnly flags.stopAllOnInstall st
      have hreg1 : (installOkState (reserveAdd
          (maybeStopAll flags.stopAllOnInstall st) ae) ae).registry =
          st.registry ++ [(ae.info.identifier, ae.info)] := by
        show regAdd (maybeStopAll flags.stopAllOnInstall st).registry _ _ = _
        rw [(maybeStopAll_fields flags.stopAllOnInstall st).1]
        rfl
      have hl2p1 : (installOkState (reserveAdd
          (maybeStopAll flags.stopAllOnInstall st) ae) ae).l2p =
          l2pSet st.l2p ae.lid
            (ae.info.identifier :: l2pLookup st.l2p ae.lid) := by
        show l2pSet (maybeStopAll flags.stopAllOnInstall st).l2p ae.lid
            (ae.info.identifier ::
              l2pLookup (maybeStopAll flags.stopAllOnInstall st).l2p ae.lid) = _
        rw [(maybeStopAll_fields flags.stopAllOnInstall st).2.1]
      have hev1 : (installOkState (reserveAdd
          (maybeStopAll flags.stopAllOnInstall st) ae) ae).events =
          st.events ++ (l1 ++ [Event.install ae.info.identifier,
            Event.releaseInfo ae.info]) := by
        show (maybeStopAll flags.stopAllOnInstall st).events ++ _ = _
        rw [hl1, List.append_assoc]
      obtain ⟨st2, d2, hrun2, hst2, hpre2, hpresv2, hev2, hns2, hcnt2, hl2p2⟩ :=
        ih (installOkState (reserveAdd
            (maybeStopAll flags.stopAllOnInstall st) ae) ae)
          (fun ae2 m => hok ae2 (by simp [m]))
          hndc.2
          (by
            intro ae2 m
            have hne : ae2.info.identifier ≠ ae.info.identifier := by
              intro hh
              exact hndc.1 (hh ▸ List.mem_map.mpr ⟨ae2, m, rfl⟩)
            rw [show regFilter (installOkState (reserveAdd
                (maybeStopAll flags.stopAllOnInstall st) ae) ae).registry
                  ae2.info.identifier =
                regFilter (st.registry ++ [(ae.info.identifier, ae.info)])
                  ae2.info.identifier by rw [hreg1]]
            unfold regFilter
            rw [List.filter_append]
            rw [show (List.filter (fun x => x.1 == ae2.info.identifier)
                [(ae.info.identifier, ae.info)]) = [] by simp [hne.symm]]
            rw [List.append_nil]
            exact hfresh ae2 (by
              rcases List.mem_append.mp m with m2 | m2
              · exact List.mem_append.mpr (Or.inl (by simp [m2]))
              · exact List.mem_append.mpr (Or.inr m2)))
      have haepre : ae.info.identifier ∉ availIds t := by
        intro hh
        exact hndc.1 (by
          unfold availIds at hh ⊢
          rw [List.map_append]
          exact List.mem_append.mpr (Or.inl hh))
      refine ⟨st2, (l1 ++ [Event.install ae.info.identifier,
        Event.releaseInfo ae.info]) ++ d2, ?_, hst2, ?_, ?_, ?_, ?_, ?_, ?_⟩
      · simp only [List.cons_append, phaseCRun, hstep]
        exact hrun2
      · intro ae2 hm2
        rcases List.mem_cons.mp hm2 with h | h
        · subst h
          rw [hpresv2 ae2.info.identifier haepre]
          rw [show regFilter (installOkState (reserveAdd
              (maybeStopAll flags.stopAllOnInstall st) ae2) ae2).registry
                ae2.info.identifier =
              regFilter (st.registry ++ [(ae2.info.identifier, ae2.info)])
                ae2.info.identifier by rw [hreg1]]
          unfold regFilter
          rw [List.filter_append]
          rw [show (List.filter (fun x => x.1 == ae2.info.identifier)
              [(ae2.info.identifier, ae2.info)]) =
              [(ae2.info.identifier, ae2.info)] by simp]
          have h0 := hfresh ae2 (by simp)
          unfold regFilter at h0
          rw [h0, List.nil_append]
        · exact hpre2 ae2 h
      · intro id2 hnotin
        have hne : id2 ≠ ae.info.identifier := by
          intro hh
          exact hnotin (by simp [availIds, hh])
        have hnt : id2 ∉ availIds t := by
          intro hh
          exact hnotin (by
            unfold availIds at hh ⊢
            simp only [List.map_cons]
            exact List.mem_cons_of_mem _ hh)
        rw [hpresv2 id2 hnt]
        rw [show regFilter (installOkState (reserveAdd
            (maybeStopAll flags.stopAllOnInstall st) ae) ae).registry id2 =
            regFilter (st.registry ++ [(ae.info.identifier, ae.info)]) id2
            by rw [hreg1]]
        unfold regFilter
        rw [List.filter_append]
        rw [show (List.filter (fun x => x.1 == id2)
            [(ae.info.identifier, ae.info)]) = [] by simp [hne.symm]]
        rw [List.append_nil]
      · rw [hev2, hev1, List.append_assoc]
      · intro e he
        rcases List.mem_append.mp he with he2 | he2
        · rcases List.mem_append.mp he2 with he3 | he3
          · rw [hstop e he3]
            rfl
          · rcases List.mem_cons.mp he3 with rfl | he4
            · rfl
            · rcases List.mem_cons.mp he4 with rfl | he5
              · rfl
              · cases he5
        · exact hns2 e he2
      · intro id2 hnotin
        have hne : id2 ≠ ae.info.identifier := by
          intro hh
          exact hnotin (by simp [availIds, hh])
        have hnt : id2 ∉ availIds t := by
          intro hh
          exact hnotin (by
            unfold availIds at hh ⊢
            simp only [List.map_cons]
            exact List.mem_cons_of_mem _ hh)
        rw [List.countP_append, List.countP_append, hcnt2 id2 hnt]
        rw [show (List.countP (isInstallOf id2) l1) = 0 by
          rw [List.countP_eq_zero]
          intro e he
          rw [hstop e he]
          simp [isInstallOf]]
        rw [show (List.countP (isInstallOf id2)
            [Event.install ae.info.identifier, Event.releaseInfo ae.info]) = 0 by
          rw [List.countP_eq_zero]
          intro e he
          rcases List.mem_cons.mp he with rfl | he2
          · simp [isInstallOf, hne.symm]
          · rcases List.mem_cons.mp he2 with rfl | he3
            · simp [isInstallOf]
            · cases he3]
      · rw [hl2p2, hl2p1, List.foldl_cons]

theorem scanMain_C5 (vcmp : String → String → Int) (inp : ScanInput)
    (s0 : CpStatus) (ids : List String)
    (pre : List AvailEntry) (ax : AvailEntry) (post : List AvailEntry)
    (hHash : inp.availHashOk = true)
    (hB : ∀ L ∈ inp.loaders, ∀ e ∈ L.result.getD [],
      e.apMallocOk = true ∧ e.insertOk = true)
    (hnd : (inputIds inp.loaders).Nodup)
    (hfreshAll : ∀ id ∈ inputIds inp.loaders, regFilter inp.registry id = [])
    (hres : ∀ lid id, inp.reserveOk lid id = true)
    (hsplit : okPairs inp.loaders = pre ++ ax :: post)
    (hpreok : ∀ ae ∈ pre,
      inp.installStatus ae.info.identifier ae.lid = CpStatus.ok)
    (hxfail : inp.installStatus ax.info.identifier ax.lid ≠ CpStatus.ok)
    (hstart : ∀ id, inp.startStatus id = CpStatus.ok)
    (hnores : ∀ L ∈ inp.loaders, ax.info.identifier ∉ L.installed) :
    (scanMain vcmp inp s0 (some ids)).status =
      inp.installStatus ax.info.identifier ax.lid ∧
    (∀ ae ∈ pre, regFilter (scanMain vcmp inp s0 (some ids)).registry
      ae.info.identifier = [(ae.info.identifier, ae.info)]) ∧
    (∀ ae ∈ post, regFilter (scanMain vcmp inp s0 (some ids)).registry
      ae.info.identifier = [] ∧
      (scanMain vcmp inp s0 (some ids)).events.countP
        (isInstallOf ae.info.identifier) = 0) ∧
    ax.info.identifier ∉
      l2pLookup (scanMain vcmp inp s0 (some ids)).l2p ax.lid ∧
    (scanMain vcmp inp s0 (some ids)).events.countP isStart = ids.length := by
  have hall : inp.loaders.all (fun L => (L.result.getD []).all
      (fun e => e.insertOk)) = true := by
    rw [List.all_eq_true]
    intro L hL
    rw [List.all_eq_true]
    intro e he
    exact (hB L hL e he).2
  have hndok : (availIds (okPairs inp.loaders)).Nodup :=
    List.Nodup.sublist (okPairs_ids_sublist inp.loaders) hnd
  have hsubIn : ∀ id ∈ availIds (okPairs inp.loaders),
      id ∈ inputIds inp.loaders :=
    fun id h => (okPairs_ids_sublist inp.loaders).subset h
  rw [hsplit] at hndok hsubIn
  have hidsplit : availIds (pre ++ ax :: post) =
      availIds pre ++ ax.info.identifier :: availIds post := by
    simp [availIds]
  rw [hidsplit] at hndok
  obtain ⟨hndpre, hndrest, hdisj⟩ := List.nodup_append.mp hndok
  have haxpre : ax.info.identifier ∉ availIds pre :=
    fun h => hdisj h (List.mem_cons_self _ _)
  have hpostpre : ∀ id ∈ availIds post, id ∉ availIds pre :=
    fun id hmem hpre2 => hdisj hpre2 (List.mem_cons_of_mem _ hmem)
  have hndBr : (availIds (pre ++ [ax])).Nodup := by
    have hre : availIds (pre ++ [ax]) =
        availIds pre ++ [ax.info.identifier] := by
      simp [availIds]
    rw [hre, List.nodup_append]
    refine ⟨hndpre, by simp, ?_⟩
    intro a ha hb
    rw [List.mem_singleton] at hb
    exact hdisj ha (hb ▸ List.mem_cons_self _ _)
  have hmemIn : ∀ id ∈ availIds (pre ++ ax :: post),
      regFilter inp.registry id = [] :=
    fun id h => hfreshAll id (hsubIn id h)
  unfold scanMain
  rw [if_neg (by simp [hHash])]
  simp only []
  obtain ⟨dB, hBeq, hBev⟩ := scanFoldLoaders_distinct vcmp inp.loaders
    ⟨s0, inp.registry, initL2p inp.loaders, false, [], []⟩
    (fun L hL e he => (hB L hL e he).1)
    (by intro L _ e _; simp [availIds])
    hnd
    (by intro id2 _; simp [availIds])
  rw [hBeq]
  dsimp only
  rw [if_pos hall, hsplit]
  rw [show ([] ++ (pre ++ ax :: post) : List AvailEntry) =
    pre ++ ax :: post from rfl]
  obtain ⟨st2, delta, hrun, hst, hpreR, hpresv, hev, hnstart, hcnt, hl2px⟩ :=
    phaseCRun_break vcmp inp.flags inp.installStatus inp.reserveOk pre ax post
      ⟨s0, inp.registry, initL2p inp.loaders, false,
        pre ++ ax :: post, [] ++ dB⟩
      (fun ae m => ⟨hres ae.lid ae.info.identifier, hpreok ae m⟩)
      (hres ax.lid ax.info.identifier) hxfail hndBr
      (by
        intro ae m
        show regFilter inp.registry ae.info.identifier = []
        apply hmemIn
        rcases List.mem_append.mp m with m2 | m2
        · exact List.mem_map.mpr ⟨ae, List.mem_append.mpr (Or.inl m2), rfl⟩
        · rw [List.mem_singleton] at m2
          subst m2
          exact List.mem_map.mpr
            ⟨ae, List.mem_append.mpr (Or.inr (List.mem_cons_self _ _)), rfl⟩)
  rw [hrun]
  dsimp only
  rw [phaseD_some]
  dsimp only
  have heva : st2.events = dB ++ delta := hev
  have hdB0 : dB.countP isStart = 0 := by
    rw [List.countP_eq_zero]
    intro e he
    simp [isStart_false_of_isBEvent (hBev e he)]
  have hdelta0 : delta.countP isStart = 0 := by
    rw [List.countP_eq_zero]
    intro e he
    simp [hnstart e he]
  have hrel0 : ((ax :: post).map
      (fun ae => Event.releaseInfo ae.info)).countP isStart = 0 := by
    rw [List.countP_eq_zero]
    intro e he
    obtain ⟨ae2, _, rfl⟩ := List.mem_map.mp he
    simp [isStart]
  refine ⟨?_, ?_, ?_, ?_, ?_⟩
  · show lastNonOk inp.startStatus ids st2.status = _
    rw [lastNonOk_allok inp.startStatus ids _ hstart, hst]
  · intro ae m
    exact hpreR ae m
  · intro ae m
    have hax2 : ae.info.identifier ∈ availIds post :=
      List.mem_map.mpr ⟨ae, m, rfl⟩
    have hnp : ae.info.identifier ∉ availIds pre := hpostpre _ hax2
    constructor
    · rw [hpresv ae.info.identifier hnp]
      show regFilter inp.registry ae.info.identifier = []
      apply hmemIn
      exact List.mem_map.mpr
        ⟨ae, List.mem_append.mpr (Or.inr (List.mem_cons_of_mem _ m)), rfl⟩
    · rw [heva]
      rw [List.countP_append, List.countP_append]
      rw [List.countP_append]
      have h1 : dB.countP (isInstallOf ae.info.identifier) = 0 := by
        rw [List.countP_eq_zero]
        intro e he
        simp [isInstallOf_false_of_isBEvent (hBev e he)]
      have h2 : delta.countP (isInstallOf ae.info.identifier) = 0 :=
        hcnt _ hnp
      have h3 : (ids.map Event.start).countP
          (isInstallOf ae.info.identifier) = 0 := by
        rw [List.countP_eq_zero]
        intro e he
        obtain ⟨id2, _, rfl⟩ := List.mem_map.mp he
        simp [isInstallOf]
      have h4 : ((ax :: post).map (fun ae2 => Event.releaseInfo ae2.info)).countP
          (isInstallOf ae.info.identifier) = 0 := by
        rw [List.countP_eq_zero]
        intro e he
        obtain ⟨ae2, _, rfl⟩ := List.mem_map.mp he
        simp [isInstallOf]
      omega
  · intro hmem
    rw [hl2px] at hmem
    rcases l2pFold_mem pre (initL2p inp.loaders) ax.info.identifier
        ⟨ax.lid, hmem⟩ with ⟨lid, hm⟩ | hin
    · rcases initL2p_lookup inp.loaders lid with h0 | ⟨L, hL, h0⟩
      · rw [h0] at hm
        cases hm
      · rw [h0] at hm
        exact hnores L hL hm
    · exact haxpre hin
  · rw [heva]
    rw [List.countP_append, List.countP_append, List.countP_append]
    rw [hdB0, hdelta0, countP_isStart_map_start, hrel0]
    omega

/-- Claim C5: when the host's `install_plugin` fails for the entry `ax`
of Phase C (every earlier entry `pre` installing fine), the scan status
becomes the code returned by the failing install, the reservation made
for `ax` in `loaders_to_plugins` is released again (its identifier is
not retained under its loader), no further `avail` entry is processed —
the entries `post` after the failing one are neither installed nor ever
the subject of an `install_plugin` call — every plug-in installed
earlier in the scan stays installed, and Phase D still runs over the
whole restart list (one `cp_start_plugin` per snapshotted
identifier). -/
theorem claim_C5 (vcmp : String → String → Int) (inp : ScanInput)
    (pre : List AvailEntry) (ax : AvailEntry) (post : List AvailEntry)
    (hA1 : inp.getPluginsInfoFail = none)
    (hA2 : inp.startedListOk = true)
    (hHash : inp.availHashOk = true)
    (hflag : inp.flags.restartActive = true)
    (hflag2 : inp.flags.upgrade = true ∨ inp.flags.stopAllOnInstall = true)
    (hB : ∀ L ∈ inp.loaders, ∀ e ∈ L.result.getD [],
      e.apMallocOk = true ∧ e.insertOk = true)
    (hnd : (inputIds inp.loaders).Nodup)
    (hfreshAll : ∀ id ∈ inputIds inp.loaders, regFilter inp.registry id = [])
    (hres : ∀ lid id, inp.reserveOk lid id = true)
    (hsplit : okPairs inp.loaders = pre ++ ax :: post)
    (hpreok : ∀ ae ∈ pre,
      inp.installStatus ae.info.identifier ae.lid = CpStatus.ok)
    (hxfail : inp.installStatus ax.info.identifier ax.lid ≠ CpStatus.ok)
    (hstart : ∀ id, inp.startStatus id = CpStatus.ok)
    (hnores : ∀ L ∈ inp.loaders, ax.info.identifier ∉ L.installed) :
    (cp_scan_plugins vcmp inp).status =
      inp.installStatus ax.info.identifier ax.lid ∧
    (∀ ae ∈ pre, regFilter (cp_scan_plugins vcmp inp).registry
      ae.info.identifier = [(ae.info.identifier, ae.info)]) ∧
    (∀ ae ∈ post, regFilter (cp_scan_plugins vcmp inp).registry
      ae.info.identifier = [] ∧
      (cp_scan_plugins vcmp inp).events.countP
        (isInstallOf ae.info.identifier) = 0) ∧
    ax.info.identifier ∉
      l2pLookup (cp_scan_plugins vcmp inp).l2p ax.lid ∧
    (cp_scan_plugins vcmp inp).events.countP isStart =
      (snapshotLoop inp.pluginState inp.strdupOk inp.nodeOk
        inp.registry).2.length := by
  unfold cp_scan_plugins
  have hc : inp.flags.restartActive = true ∧
      (inp.flags.upgrade = true ∨ inp.flags.stopAllOnInstall = true) :=
    ⟨hflag, hflag2⟩
  rw [if_pos hc, hA1]
  simp only [hA2, not_true, ite_false, if_false]
  exact scanMain_C5 vcmp inp _ _ pre ax post hHash hB hnd hfreshAll hres
    hsplit hpreok hxfail hstart hnores

/-- Witness for claim C5 at `winp5`: `p` installs, the install of `x`
fails with `CP_ERR_IO` which becomes the scan status, `x` holds no
reservation under loader 0 afterwards, and the snapshotted plug-in `a`
is still started once by Phase D. -/
theorem claim_C5_witness :
    (cp_scan_plugins vcmp0 winp5).status = CpStatus.errIO ∧
    regFilter (cp_scan_plugins vcmp0 winp5).registry "p" = [("p", wp1)] ∧
    "x" ∉ l2pLookup (cp_scan_plugins vcmp0 winp5).l2p 0 ∧
    (cp_scan_plugins vcmp0 winp5).events.countP isStart =
      (snapshotLoop winp5.pluginState winp5.strdupOk winp5.nodeOk
        winp5.registry).2.length := by
  obtain ⟨h1, h2, _, h4, h5⟩ := claim_C5 vcmp0 winp5 [⟨wp1, 0⟩] ⟨wp6, 0⟩ []
    rfl rfl rfl rfl (Or.inl rfl) (by decide) (by decide) (by decide)
    (fun _ _ => rfl) (by decide) (by decide) (by decide) (fun _ => rfl)
    (by decide)
  refine ⟨h1.trans (by decide), ?_, h4, h5⟩
  exact h2 ⟨wp1, 0⟩ (List.mem_singleton.mpr rfl)

end CPluff
